import Mathlib

/-!
# Verification of the nep-ipo-reminder pipeline core

Shallow embedding of `src/pipeline.py` (the deduplication ledger, the
send-decision orchestration and the ICS calendar builder) together with
proofs settling the frozen claims about the natural-language spec.

Conventions:
* Python machine integers are modelled as `Nat`/`Int` with explicit
  `% 2^32` where 32-bit overflow matters (SHA-256).
* Python `dict`s are modelled as association lists in insertion order
  (`setdefault` appends at the end, assignment replaces in place),
  matching CPython's ordered-dict semantics.
* Fallible Python code (raising exceptions) is modelled with
  `Except`/`Option`; an uncaught exception aborts the modelled run.
-/

set_option maxRecDepth 100000
set_option autoImplicit false

namespace NepIpo

/-! ## 32-bit helpers (for SHA-256, `hashlib`/`hmac` as used by the code) -/

def w32 : Nat := 4294967296

def rotr32 (n x : Nat) : Nat := ((x >>> n) ||| (x <<< (32 - n))) % w32

/-- The 64 SHA-256 round constants. -/
def shaK : List Nat :=
  [1116352408, 1899447441, 3049323471, 3921009573, 961987163, 1508970993,
   2453635748, 2870763221, 3624381080, 310598401, 607225278, 1426881987,
   1925078388, 2162078206, 2614888103, 3248222580, 3835390401, 4022224774,
   264347078, 604807628, 770255983, 1249150122, 1555081692, 1996064986,
   2554220882, 2821834349, 2952996808, 3210313671, 3336571891, 3584528711,
   113926993, 338241895, 666307205, 773529912, 1294757372, 1396182291,
   1695183700, 1986661051, 2177026350, 2456956037, 2730485921, 2820302411,
   3259730800, 3345764771, 3516065817, 3600352804, 4094571909, 275423344,
   430227734, 506948616, 659060556, 883997877, 958139571, 1322822218,
   1537002063, 1747873779, 1955562222, 2024104815, 2227730452, 2361852424,
   2428436474, 2756734187, 3204031479, 3329325298]

/-- The initial SHA-256 hash state. -/
def shaH0 : List Nat :=
  [1779033703, 3144134277, 1013904242, 2773480762, 1359893119, 2600822924,
   528734635, 1541459225]

/-- Extends the 16 message-schedule words of one block to 64. -/
def sha256Schedule (block : List Nat) : List Nat :=
  (List.range 48).foldl
    (fun ws _ =>
      let n := ws.length
      let w15 := ws.getD (n - 15) 0
      let w2 := ws.getD (n - 2) 0
      let w16 := ws.getD (n - 16) 0
      let w7 := ws.getD (n - 7) 0
      let s0 := rotr32 7 w15 ^^^ rotr32 18 w15 ^^^ (w15 >>> 3)
      let s1 := rotr32 17 w2 ^^^ rotr32 19 w2 ^^^ (w2 >>> 10)
      ws ++ [(w16 + s0 + w7 + s1) % w32])
    block

/-- One SHA-256 compression round. -/
def sha256Round (st : List Nat) (kw : Nat × Nat) : List Nat :=
  match st with
  | [a, b, c, d, e, f, g, h] =>
    let s1 := rotr32 6 e ^^^ rotr32 11 e ^^^ rotr32 25 e
    let ch := (e &&& f) ^^^ ((e ^^^ (w32 - 1)) &&& g)
    let t1 := (h + s1 + ch + kw.1 + kw.2) % w32
    let s0 := rotr32 2 a ^^^ rotr32 13 a ^^^ rotr32 22 a
    let maj := (a &&& b) ^^^ (a &&& c) ^^^ (b &&& c)
    let t2 := (s0 + maj) % w32
    [(t1 + t2) % w32, a, b, c, (d + t1) % w32, e, f, g]
  | st => st

/-- SHA-256 compression of one 16-word block into the running state. -/
def sha256Compress (h : List Nat) (block : List Nat) : List Nat :=
  let ws := sha256Schedule block
  let fin := (shaK.zip ws).foldl sha256Round h
  (h.zip fin).map (fun p => (p.1 + p.2) % w32)

/-- Big-endian 8-byte encoding of a length (in bits). -/
def be8 (n : Nat) : List Nat :=
  [(n >>> 56) % 256, (n >>> 48) % 256, (n >>> 40) % 256, (n >>> 32) % 256,
   (n >>> 24) % 256, (n >>> 16) % 256, (n >>> 8) % 256, n % 256]

/-- SHA-256 padding of a byte string. -/
def sha256Pad (m : List Nat) : List Nat :=
  let L := m.length
  let z := (64 + 56 - (L + 1) % 64) % 64
  m ++ [128] ++ List.replicate z 0 ++ be8 (8 * L)

/-- Groups bytes into big-endian 32-bit words. -/
def bytesToWords : List Nat → List Nat
  | b3 :: b2 :: b1 :: b0 :: rest =>
    (b3 * 16777216 + b2 * 65536 + b1 * 256 + b0) :: bytesToWords rest
  | _ => []

/-- Splits a byte string into 64-byte chunks (structural, fuelled). -/
def chunks64Aux : Nat → List Nat → List (List Nat)
  | 0, _ => []
  | _, [] => []
  | fuel + 1, l => l.take 64 :: chunks64Aux fuel (l.drop 64)

def chunks64 (l : List Nat) : List (List Nat) := chunks64Aux (l.length + 1) l

/-- SHA-256 of a byte string, as 32 bytes. -/
def sha256Bytes (m : List Nat) : List Nat :=
  let blocks := chunks64 (sha256Pad m)
  let h := blocks.foldl (fun h b => sha256Compress h (bytesToWords b)) shaH0
  h.flatMap (fun w => [(w >>> 24) % 256, (w >>> 16) % 256, (w >>> 8) % 256, w % 256])

/-! ## UTF-8 and lowercase hex, as `str.encode("utf-8")` / `.hexdigest()` -/

def utf8EncodeChar (c : Char) : List Nat :=
  let n := c.toNat
  if n < 128 then [n]
  else if n < 2048 then [192 + n / 64, 128 + n % 64]
  else if n < 65536 then [224 + n / 4096, 128 + n / 64 % 64, 128 + n % 64]
  else [240 + n / 262144, 128 + n / 4096 % 64, 128 + n / 64 % 64, 128 + n % 64]

def utf8Encode (s : String) : List Nat := s.data.flatMap utf8EncodeChar

def hexChars : List Char := "0123456789abcdef".data

def hexDigitChar (n : Nat) : Char := hexChars.getD (n % 16) '0'

def byteHex (b : Nat) : List Char := [hexDigitChar (b / 16), hexDigitChar b]

def bytesToHex (bs : List Nat) : String := String.mk (bs.flatMap byteHex)

/-- `hashlib.sha256(s.encode("utf-8")).hexdigest()` (pipeline.py line 134). -/
def sha256HexS (s : String) : String := bytesToHex (sha256Bytes (utf8Encode s))

/-- `hmac_hash` (pipeline.py lines 95-97): HMAC-SHA256 keyed by the salt,
lowercase hex digest.  HMAC per RFC 2104 with 64-byte block size, which is
what `hmac.new(salt, value, hashlib.sha256)` computes. -/
def hmac_hash (salt value : String) : String :=
  let key0 := utf8Encode salt
  let key1 := if 64 < key0.length then sha256Bytes key0 else key0
  let key := key1 ++ List.replicate (64 - key1.length) 0
  let ipad := key.map (fun b => b ^^^ 54)
  let opad := key.map (fun b => b ^^^ 92)
  bytesToHex (sha256Bytes (opad ++ sha256Bytes (ipad ++ utf8Encode value)))

/-! ## Python `datetime` model

A `datetime.datetime` is a civil date-time plus an optional fixed UTC
offset in minutes (`tzinfo`); `offset = none` models an offset-naive
datetime.  Conversions between civil dates and day numbers use the
standard proleptic-Gregorian algorithms, which is what `datetime` uses. -/

deriving instance DecidableEq for Except

structure PyDatetime where
  year : Nat
  month : Nat
  day : Nat
  hour : Nat
  minute : Nat
  second : Nat
  micro : Nat
  offset : Option Int
  deriving DecidableEq, Repr

inductive PyErr
  | valueErr
  | typeErr
  | transportErr
  deriving DecidableEq, Repr

/-- Days since 1970-01-01 of a civil date (year ≥ 1, as in `datetime`). -/
def daysFromCivil (y m d : Nat) : Int :=
  let y' := if m ≤ 2 then y - 1 else y
  let era := y' / 400
  let yoe := y' % 400
  let mp := (m + 9) % 12
  let doy := (153 * mp + 2) / 5 + d - 1
  let doe := yoe * 365 + yoe / 4 - yoe / 100 + doy
  (era * 146097 + doe : Int) - 719468

/-- Civil date from days since 1970-01-01. -/
def civilFromDays (z : Int) : Nat × Nat × Nat :=
  let zz := (z + 719468).toNat
  let era := zz / 146097
  let doe := zz % 146097
  let yoe := (doe - doe / 1460 + doe / 36524 - doe / 146097) / 365
  let y := yoe + era * 400
  let doy := doe - (365 * yoe + yoe / 4 - yoe / 100)
  let mp := (5 * doy + 2) / 153
  let d := doy - (153 * mp + 2) / 5 + 1
  let m := if mp < 10 then mp + 3 else mp - 9
  (if m ≤ 2 then y + 1 else y, m, d)

def microsPerDay : Int := 86400000000

def timeMicros (d : PyDatetime) : Nat :=
  ((d.hour * 60 + d.minute) * 60 + d.second) * 1000000 + d.micro

/-- The wall-clock instant in microseconds since the epoch, ignoring the offset. -/
def toWallMicros (d : PyDatetime) : Int :=
  daysFromCivil d.year d.month d.day * microsPerDay + (timeMicros d : Int)

/-- The UTC instant of a datetime (naive datetimes are taken at face value;
callers below always check awareness first where Python would raise). -/
def toUtcMicros (d : PyDatetime) : Int :=
  toWallMicros d - d.offset.getD 0 * 60000000

def fromWallMicros (w : Int) (off : Option Int) : PyDatetime :=
  let z := Int.ediv w microsPerDay
  let r := (Int.emod w microsPerDay).toNat
  let c := civilFromDays z
  ⟨c.1, c.2.1, c.2.2, r / 3600000000, r / 60000000 % 60, r / 1000000 % 60,
   r % 1000000, off⟩

/-- `d.astimezone(timezone.utc)` for an offset-aware `d`: same instant,
re-expressed with UTC offset 0.  (The pipeline only applies it to aware
datetimes; the host-local-time fallback for naive ones is not modelled.) -/
def astimezoneUtc (d : PyDatetime) : PyDatetime :=
  fromWallMicros (toUtcMicros d) (some 0)

/-- `start_local + timedelta(microseconds=delta)`: wall-clock arithmetic on a
fixed-offset datetime keeps the same `tzinfo`. -/
def addWallMicros (d : PyDatetime) (delta : Int) : PyDatetime :=
  fromWallMicros (toWallMicros d + delta) d.offset

def natToCharsAux : Nat → Nat → List Char
  | 0, _ => []
  | fuel + 1, n =>
    if n < 10 then [hexDigitChar n]
    else natToCharsAux fuel (n / 10) ++ [hexDigitChar (n % 10)]

def natToChars (n : Nat) : List Char := natToCharsAux (n + 1) n

def padChars (w : Nat) (l : List Char) : List Char :=
  List.replicate (w - l.length) '0' ++ l

/-- `dt.strftime("%Y%m%dT%H%M%SZ")` (pipeline.py lines 131-132, 144). -/
def strftimeZ (d : PyDatetime) : String :=
  String.mk (padChars 4 (natToChars d.year) ++ padChars 2 (natToChars d.month) ++
    padChars 2 (natToChars d.day) ++ ['T'] ++ padChars 2 (natToChars d.hour) ++
    padChars 2 (natToChars d.minute) ++ padChars 2 (natToChars d.second) ++ ['Z'])

/-- `dt.isoformat()` for whole-minute offsets: the format the ledger's
timestamps are written in (pipeline.py line 323). -/
def pyIsoFormat (d : PyDatetime) : String :=
  let datePart := padChars 4 (natToChars d.year) ++ ['-'] ++
    padChars 2 (natToChars d.month) ++ ['-'] ++ padChars 2 (natToChars d.day)
  let timePart := padChars 2 (natToChars d.hour) ++ [':'] ++
    padChars 2 (natToChars d.minute) ++ [':'] ++ padChars 2 (natToChars d.second)
  let frac := if d.micro = 0 then [] else '.' :: padChars 6 (natToChars d.micro)
  let offPart :=
    match d.offset with
    | none => []
    | some o =>
      let a := o.natAbs
      (if o < 0 then '-' else '+') ::
        (padChars 2 (natToChars (a / 60)) ++ [':'] ++ padChars 2 (natToChars (a % 60)))
  String.mk (datePart ++ ['T'] ++ timePart ++ frac ++ offPart)

def digit? (c : Char) : Option Nat :=
  if '0' ≤ c ∧ c ≤ '9' then some (c.toNat - 48) else none

def parse2 : List Char → Option (Nat × List Char)
  | c1 :: c2 :: rest =>
    match digit? c1, digit? c2 with
    | some d1, some d2 => some (d1 * 10 + d2, rest)
    | _, _ => none
  | _ => none

def parse4 : List Char → Option (Nat × List Char)
  | c1 :: c2 :: c3 :: c4 :: rest =>
    match digit? c1, digit? c2, digit? c3, digit? c4 with
    | some d1, some d2, some d3, some d4 =>
      some (((d1 * 10 + d2) * 10 + d3) * 10 + d4, rest)
    | _, _, _, _ => none
  | _ => none

def isLeap (y : Nat) : Bool := y % 4 == 0 && (y % 100 != 0 || y % 400 == 0)

def daysInMonth (y m : Nat) : Nat :=
  if m = 2 then (if isLeap y then 29 else 28)
  else if m = 4 ∨ m = 6 ∨ m = 9 ∨ m = 11 then 30
  else 31

/-- Parses a leading `YYYY-MM-DD` with calendar validation. -/
def parseDateL (l : List Char) : Option ((Nat × Nat × Nat) × List Char) :=
  match parse4 l with
  | none => none
  | some (y, r1) =>
    match r1 with
    | '-' :: r2 =>
      match parse2 r2 with
      | none => none
      | some (m, r3) =>
        match r3 with
        | '-' :: r4 =>
          match parse2 r4 with
          | none => none
          | some (d, r5) =>
            if 1 ≤ y ∧ y ≤ 9999 ∧ 1 ≤ m ∧ m ≤ 12 ∧ 1 ≤ d ∧ d ≤ daysInMonth y m
            then some ((y, m, d), r5)
            else none
        | _ => none
    | _ => none

def takeDigits : List Char → List Nat × List Char
  | c :: rest =>
    match digit? c with
    | some d => let p := takeDigits rest; (d :: p.1, p.2)
    | none => ([], c :: rest)
  | [] => ([], [])

/-- Parses a leading `HH:MM[:SS[.ffffff]]` with range validation. -/
def parseTimeL (l : List Char) : Option ((Nat × Nat × Nat × Nat) × List Char) :=
  match parse2 l with
  | none => none
  | some (h, r1) =>
    match r1 with
    | ':' :: r2 =>
      match parse2 r2 with
      | none => none
      | some (mi, r3) =>
        let rest3 :=
          match r3 with
          | ':' :: r4 =>
            match parse2 r4 with
            | none => none
            | some (s, r5) =>
              match r5 with
              | '.' :: r6 =>
                let p := takeDigits r6
                if 1 ≤ p.1.length ∧ p.1.length ≤ 6 then
                  some ((s, (p.1.foldl (fun a d => a * 10 + d) 0) * 10 ^ (6 - p.1.length)), p.2)
                else none
              | _ => some ((s, 0), r5)
          | _ => some ((0, 0), r3)
        match rest3 with
        | none => none
        | some ((s, us), r4) =>
          if h ≤ 23 ∧ mi ≤ 59 ∧ s ≤ 59 then some ((h, mi, s, us), r4) else none
    | _ => none

/-- `datetime.fromisoformat` on the grammar
`YYYY-MM-DD[(T| )HH:MM[:SS[.ffffff]][Z|±HH:MM]]` — the subset covering every
string the pipeline itself writes (`datetime.now(timezone.utc).isoformat()`),
offset-naive timestamps, and rejecting malformed input.  Exotic ISO-8601
spellings accepted by newer CPython are out of scope of the claims. -/
def pyFromIso (ts : String) : Option PyDatetime :=
  match parseDateL ts.data with
  | none => none
  | some ((y, m, d), r) =>
    match r with
    | [] => some ⟨y, m, d, 0, 0, 0, 0, none⟩
    | sep :: rt =>
      if sep = 'T' ∨ sep = ' ' then
        match parseTimeL rt with
        | none => none
        | some ((h, mi, s, us), r2) =>
          match r2 with
          | [] => some ⟨y, m, d, h, mi, s, us, none⟩
          | ['Z'] => some ⟨y, m, d, h, mi, s, us, some 0⟩
          | sgn :: r3 =>
            if sgn = '+' ∨ sgn = '-' then
              match parse2 r3 with
              | none => none
              | some (oh, r4) =>
                match r4 with
                | ':' :: r5 =>
                  match parse2 r5 with
                  | none => none
                  | some (om, r6) =>
                    if r6 = [] ∧ oh ≤ 23 ∧ om ≤ 59 then
                      some ⟨y, m, d, h, mi, s, us,
                        some (if sgn = '-' then -(oh * 60 + om : Int) else (oh * 60 + om : Int))⟩
                    else none
                | _ => none
            else none
      else none

/-- `parse_iso_date` (pipeline.py lines 31-32): `date.fromisoformat`, i.e. a
strict `YYYY-MM-DD` calendar date. -/
def parse_iso_date (value : String) : Option (Nat × Nat × Nat) :=
  match parseDateL value.data with
  | some (ymd, []) => some ymd
  | _ => none

/-- `cutoff = datetime.now(timezone.utc) - timedelta(days=days)` as a UTC
instant in microseconds (pipeline.py line 80). -/
def cutoffMicros (now : PyDatetime) (days : Nat) : Int :=
  toUtcMicros now - (days : Int) * microsPerDay

/-- `ts < cutoff` where `cutoff` is offset-aware: comparing an offset-naive
datetime with an aware one raises `TypeError` in Python. -/
def pyLtCutoff (d : PyDatetime) (cutoff : Int) : Except PyErr Bool :=
  match d.offset with
  | none => .error .typeErr
  | some _ => .ok (decide (toUtcMicros d < cutoff))

/-- Golden conversion check: 2026-02-09 09:00 at UTC+05:45 is 03:15 UTC. -/
theorem strftimeZ_golden :
    strftimeZ (astimezoneUtc ⟨2026, 2, 9, 9, 0, 0, 0, some 345⟩) = "20260209T031500Z" := by
  decide

/-- Round-trip check: the pipeline's own ledger timestamps re-parse as aware. -/
theorem pyFromIso_isoformat_check :
    pyFromIso (pyIsoFormat ⟨2026, 3, 1, 0, 0, 0, 123456, some 0⟩)
      = some ⟨2026, 3, 1, 0, 0, 0, 123456, some 0⟩ := by
  decide

/-! ## ICS text machinery: escaping, CRLF splitting/joining, line folding

`str.replace(old, new)` with a single-character pattern replaces every
occurrence left to right, which is exactly a per-character `flatMap`. -/

def pyReplace1 (pat : Char) (rep : List Char) (l : List Char) : List Char :=
  l.flatMap (fun c => if c = pat then rep else [c])

/-- `ics_escape` (pipeline.py lines 35-41): backslash first, then `;`, `,`,
newline, each via `str.replace`. -/
def icsEscapeL (l : List Char) : List Char :=
  pyReplace1 '\n' ['\\', 'n']
    (pyReplace1 ',' ['\\', ',']
      (pyReplace1 ';' ['\\', ';']
        (pyReplace1 '\\' ['\\', '\\'] l)))

def ics_escape (s : String) : String := String.mk (icsEscapeL s.data)

/-- The effect of `ics_escape` on one character (single-pass form). -/
def icsEscapeChar (c : Char) : List Char :=
  if c = '\\' then ['\\', '\\']
  else if c = ';' then ['\\', ';']
  else if c = ',' then ['\\', ',']
  else if c = '\n' then ['\\', 'n']
  else [c]

/-- The standard calendar-text unescape (the spec's inverse transform):
`\n`/`\<c>` become a newline resp. the bare character. -/
def icsUnescapeL : List Char → List Char
  | [] => []
  | [c] => [c]
  | c :: d :: rest =>
    if c = '\\' then (if d = 'n' then '\n' else d) :: icsUnescapeL rest
    else c :: icsUnescapeL (d :: rest)

def icsUnescape (s : String) : String := String.mk (icsUnescapeL s.data)

/-- The `while` loop of `fold_ics` (pipeline.py lines 47-54) on one line,
with explicit fuel (each iteration shortens the line by 69 characters, so
`l.length` is always enough fuel). -/
def foldLineAux : Nat → List Char → List (List Char)
  | 0, l => [l]
  | fuel + 1, l =>
    if l.length ≤ 70 then [l]
    else l.take 70 :: foldLineAux fuel (' ' :: l.drop 70)

def foldLine (l : List Char) : List (List Char) := foldLineAux l.length l

/-- `s.split("\r\n")`: left-to-right scan for the two-character separator. -/
def splitCRLFL : List Char → List (List Char)
  | [] => [[]]
  | [c] => [[c]]
  | c :: d :: rest =>
    if c = '\r' ∧ d = '\n' then [] :: splitCRLFL rest
    else
      match splitCRLFL (d :: rest) with
      | [] => [[c]]
      | l :: ls => (c :: l) :: ls

/-- `"\r\n".join(lines)`. -/
def joinCRLFL : List (List Char) → List Char
  | [] => []
  | [l] => l
  | l :: rest => l ++ '\r' :: '\n' :: joinCRLFL rest

/-- `fold_ics` (pipeline.py lines 44-55): split on CRLF, fold each line at
70 characters with a one-space continuation prefix, rejoin with CRLF. -/
def fold_ics (s : String) : String :=
  String.mk (joinCRLFL ((splitCRLFL s.data).flatMap foldLine))

/-- Merges a physical line onto an unfolded tail: a following line starting
with one space is a continuation. -/
def consLine (l : List Char) : List (List Char) → List (List Char)
  | [] => [l]
  | m :: ms => if m.head? = some ' ' then (l ++ m.tail) :: ms else l :: m :: ms

/-- The spec's un-folding: remove every CRLF-plus-space continuation. -/
def unfoldLines : List (List Char) → List (List Char)
  | [] => []
  | l :: rest => consLine l (unfoldLines rest)

/-- UTF-8 octet count of a line (the spec's "octets"). -/
def utf8Len (l : List Char) : Nat := (l.flatMap utf8EncodeChar).length

/-! ## Offerings, the calendar builder, the ledger store and the orchestrator -/

/-- A scraped offering row.  The scraper returns loosely-typed string maps;
`none` models an absent key, `some ""` a present-but-blank value (Python's
`row.get(k)` vs `row.get(k, default)` distinguish these). -/
structure Row where
  symbol : Option String
  company : Option String
  openingDate : Option String
  closingDate : Option String
  issueManager : Option String
  typ : Option String
  deriving DecidableEq, Repr

/-- Python `str.strip()` whitespace (the ASCII cases). -/
def isPySpace (c : Char) : Bool :=
  c = ' ' || c = '\t' || c = '\n' || c = '\r' || c = '\x0b' || c = '\x0c'

/-- Python `str.strip()`: drop whitespace from both ends. -/
def pyStrip (s : String) : String :=
  String.mk (((s.data.dropWhile isPySpace).reverse.dropWhile isPySpace).reverse)

/-- `issue_id_from_row` (pipeline.py lines 58-63); the `ValueError` for a
blank Symbol or Opening Date is modelled as `none` (the caller catches it). -/
def issue_id_from_row (row : Row) : Option String :=
  let symbol := pyStrip (row.symbol.getD "")
  let opening := pyStrip (row.openingDate.getD "")
  if symbol = "" ∨ opening = "" then none
  else some (symbol ++ "|" ++ opening)

/-- `NEPAL_TZ = timezone(timedelta(hours=5, minutes=45))` (pipeline.py
line 23), as a fixed offset in minutes. -/
def NEPAL_TZ : Int := 5 * 60 + 45

def joinCRLFs (ls : List String) : String := String.mk (joinCRLFL (ls.map String.data))

/-- The `lines` list assembled by `build_ics` (pipeline.py lines 145-165),
given the already-parsed closing date. -/
def icsContentLines (row : Row)
    (issue_id recipient organizer_email organizer_name : String)
    (now : PyDatetime) (closing : Nat × Nat × Nat) : List String :=
  let start_local : PyDatetime :=
    ⟨closing.1, closing.2.1, closing.2.2, 9, 0, 0, 0, some NEPAL_TZ⟩
  let end_local := addWallMicros start_local 3600000000
  let start_utc := strftimeZ (astimezoneUtc start_local)
  let end_utc := strftimeZ (astimezoneUtc end_local)
  let uid := sha256HexS issue_id
  let summary := ics_escape ("Final Day: " ++ row.typ.getD "IPO" ++ " " ++
    row.company.getD "" ++ " (" ++ row.symbol.getD "" ++ ")")
  let description := ics_escape ("Final day to apply (9:00–10:00 AM NPT reminder).\\n" ++
    "Close: " ++ row.closingDate.getD "" ++ "\\n" ++
    "Issue Manager: " ++ row.issueManager.getD "")
  ["BEGIN:VCALENDAR",
   "VERSION:2.0",
   "PRODID:-//nep-ipo-reminder//EN",
   "CALSCALE:GREGORIAN",
   "METHOD:REQUEST",
   "BEGIN:VEVENT",
   "UID:" ++ uid,
   "DTSTAMP:" ++ strftimeZ now,
   "ORGANIZER;CN=" ++ ics_escape organizer_name ++ ":mailto:" ++ organizer_email,
   "ATTENDEE;CN=" ++ ics_escape recipient ++
     ";ROLE=REQ-PARTICIPANT;PARTSTAT=NEEDS-ACTION;RSVP=TRUE:mailto:" ++ recipient,
   "SUMMARY:" ++ summary,
   "DESCRIPTION:" ++ description,
   "DTSTART:" ++ start_utc,
   "DTEND:" ++ end_utc,
   "SEQUENCE:0",
   "STATUS:CONFIRMED",
   "TRANSP:OPAQUE",
   "END:VEVENT",
   "END:VCALENDAR"]

/-- `"\r\n".join(lines) + "\r\n"` (pipeline.py line 166). -/
def icsDocument (row : Row)
    (issue_id recipient organizer_email organizer_name : String)
    (now : PyDatetime) (closing : Nat × Nat × Nat) : String :=
  joinCRLFs (icsContentLines row issue_id recipient organizer_email organizer_name now closing) ++
    "\r\n"

/-- `build_ics` (pipeline.py lines 119-167).  An absent or unparsable
`Closing Date` raises (`KeyError`/`ValueError`), modelled as an error; the
`DTSTAMP` uses the run's current UTC time `now`. -/
def build_ics (row : Row)
    (issue_id recipient organizer_email organizer_name : String)
    (now : PyDatetime) : Except PyErr String :=
  match parse_iso_date (row.closingDate.getD "") with
  | none => .error .valueErr
  | some c =>
    .ok (fold_ics (icsDocument row issue_id recipient organizer_email organizer_name now c))

/-! ### Ledger store

A Python `dict` is an insertion-ordered association list with unique keys:
lookup finds the first match, assignment replaces in place, and a new key is
appended at the end. -/

abbrev Bucket := List (String × String)

abbrev Ledger := List (String × Bucket)

def lookupA {α : Type} : List (String × α) → String → Option α
  | [], _ => none
  | (k, v) :: rest, key => if k = key then some v else lookupA rest key

def containsKey (b : Bucket) (k : String) : Bool := (lookupA b k).isSome

def insertA {α : Type} : List (String × α) → String → α → List (String × α)
  | [], key, v => [(key, v)]
  | (k, w) :: rest, key, v =>
    if k = key then (key, v) :: rest else (k, w) :: insertA rest key v

/-- The inner loop of `prune_ledger` (pipeline.py lines 83-90) over one
offering's entries: unparsable timestamps are deleted, parsed ones are
compared against the aware cutoff (raising `TypeError` when naive), and
strictly-older ones are deleted. -/
def pruneBucket (cutoff : Int) : Bucket → Except PyErr Bucket
  | [] => .ok []
  | (k, ts) :: rest =>
    match pyFromIso ts with
    | none => pruneBucket cutoff rest
    | some d =>
      match pyLtCutoff d cutoff with
      | .error e => .error e
      | .ok true => pruneBucket cutoff rest
      | .ok false =>
        match pruneBucket cutoff rest with
        | .error e => .error e
        | .ok r => .ok ((k, ts) :: r)

/-- `prune_ledger` (pipeline.py lines 79-92): prune every bucket, then drop
offering entries left empty.  An uncaught `TypeError` aborts the whole prune
(the run dies before any save). -/
def prune_ledger (now : PyDatetime) (days : Nat) : Ledger → Except PyErr Ledger
  | [] => .ok []
  | (id, entries) :: rest =>
    match pruneBucket (cutoffMicros now days) entries with
    | .error e => .error e
    | .ok b =>
      match prune_ledger now days rest with
      | .error e => .error e
      | .ok r => .ok (if b.isEmpty then r else (id, b) :: r)

/-- Whether a record survives pruning, as the spec describes it: its
timestamp parses and is at or after the cutoff. -/
def keepEntry (cutoff : Int) (ts : String) : Bool :=
  match pyFromIso ts with
  | none => false
  | some d => d.offset.isSome && decide (cutoff ≤ toUtcMicros d)

/-- The spec's description of pruning: filter every bucket by `keepEntry`,
then drop offering entries left empty. -/
def pruneSpec (cutoff : Int) : Ledger → Ledger
  | [] => []
  | (id, b) :: rest =>
    let fb := b.filter (fun e => keepEntry cutoff e.2)
    if fb.isEmpty then pruneSpec cutoff rest else (id, fb) :: pruneSpec cutoff rest

/-- A timestamp is harmless to the naive/aware comparison: it either fails
to parse or parses offset-aware. -/
def awareTs (ts : String) : Bool :=
  match pyFromIso ts with
  | none => true
  | some d => d.offset.isSome

/-! ### Ledger file loading (`load_ledger`, pipeline.py lines 66-70)

`json.load` is external library code, modelled at its interface: a file is
either absent, present but not valid JSON (`json.load` raises
`JSONDecodeError`, a `ValueError`), or present with some parsed JSON value. -/

inductive Json
  | null
  | bool (b : Bool)
  | num (n : Int)
  | str (s : String)
  | arr (xs : List Json)
  | obj (fields : List (String × Json))

inductive LedgerFile
  | absent
  | invalid
  | parsed (j : Json)

/-- `load_ledger`: empty mapping when no file exists, otherwise whatever
`json.load` yields — the parsed value is returned with no shape validation. -/
def load_ledger : LedgerFile → Except PyErr Json
  | .absent => .ok (.obj [])
  | .invalid => .error .valueErr
  | .parsed j => .ok j

/-- The spec's expected persisted structure: a JSON object mapping offering
identities to objects mapping dedupe keys to timestamp strings. -/
def isLedgerShape : Json → Bool
  | .obj fields =>
    fields.all fun p =>
      match p.2 with
      | .obj inner =>
        inner.all fun q =>
          match q.2 with
          | .str _ => true
          | _ => false
      | _ => false
  | _ => false

/-! ### Send orchestrator (`run_pipeline`, pipeline.py lines 207-330)

Configuration (salt, SMTP credentials, sender identity) is validated before
any work; the model takes it as parameters.  The external mailer is an
oracle `mailOk`: `false` means `send_email` raises a transport error, which
is not caught and aborts the run.  A single `now` stands for the run's
clock.  The ledger is taken post-`load` (see `load_ledger` for the file
layer). -/

def DEV_EMAIL : String := "suyoginusa@gmail.com"

/-- The skip test at pipeline.py line 306:
`if not (dev_mode or force_send) and dedupe_key in issue_bucket`. -/
def decideSkip (dev_mode force_send : Bool) (bucket : Bucket) (key : String) : Bool :=
  !(dev_mode || force_send) && containsKey bucket key

structure EmailLoopOut where
  bucket : Bucket
  sends : List (String × String)
  cnt : Nat
  err : Option PyErr
  deriving DecidableEq, Repr

structure RowsOut where
  ledger : Ledger
  sends : List (String × String)
  cnt : Nat
  err : Option PyErr
  deriving DecidableEq, Repr

structure RunResult where
  sends : List (String × String)
  sentCount : Nat
  ledger : Ledger
  saved : Option Ledger
  error : Option PyErr
  deriving DecidableEq, Repr

/-- The `for email in emails` loop (pipeline.py lines 300-324): build the
invite (an unparsable closing date raises here), test the dedupe key, send
(a transport failure aborts), record the timestamp unless in dev mode. -/
def processEmails (salt : String) (force_send dev_mode : Bool) (now : PyDatetime)
    (mailOk : String → String → Bool) (sender_email sender_name : String)
    (row : Row) (issue_id : String) :
    List String → Bucket → EmailLoopOut
  | [], b => ⟨b, [], 0, none⟩
  | email :: rest, b =>
    match build_ics row issue_id email sender_email sender_name now with
    | .error e => ⟨b, [], 0, some e⟩
    | .ok _ =>
      let dedupe_key := hmac_hash salt (email ++ "|" ++ issue_id)
      if decideSkip dev_mode force_send b dedupe_key then
        processEmails salt force_send dev_mode now mailOk sender_email sender_name
          row issue_id rest b
      else if mailOk issue_id email then
        let b' := if dev_mode then b else insertA b dedupe_key (pyIsoFormat now)
        let r := processEmails salt force_send dev_mode now mailOk sender_email sender_name
          row issue_id rest b'
        ⟨r.bucket, (issue_id, email) :: r.sends, r.cnt + 1, r.err⟩
      else ⟨b, [], 0, some .transportErr⟩

/-- The `for row in open_rows` loop (pipeline.py lines 253-324): rows with a
bad identity or a blank closing date are skipped; `setdefault` materialises
the offering's bucket, whose final state is written back in place. -/
def processRows (salt : String) (force_send dev_mode : Bool) (now : PyDatetime)
    (mailOk : String → String → Bool) (sender_email sender_name : String)
    (emails : List String) :
    List Row → Ledger → RowsOut
  | [], L => ⟨L, [], 0, none⟩
  | row :: rest, L =>
    match issue_id_from_row row with
    | none =>
      processRows salt force_send dev_mode now mailOk sender_email sender_name emails rest L
    | some issue_id =>
      if row.closingDate.getD "" = "" then
        processRows salt force_send dev_mode now mailOk sender_email sender_name emails rest L
      else
        let b := (lookupA L issue_id).getD []
        let eo := processEmails salt force_send dev_mode now mailOk sender_email sender_name
          row issue_id emails b
        let L' := insertA L issue_id eo.bucket
        match eo.err with
        | some e => ⟨L', eo.sends, eo.cnt, some e⟩
        | none =>
          let ro := processRows salt force_send dev_mode now mailOk sender_email sender_name
            emails rest L'
          ⟨ro.ledger, eo.sends ++ ro.sends, eo.cnt + ro.cnt, ro.err⟩

/-- `run_pipeline` (pipeline.py lines 207-330) after configuration checks:
early exit when no open rows; dev mode forces the single test recipient and
an empty in-memory ledger (the file is neither read nor pruned); the ledger
is persisted only when the loop finished, something was sent, and dev mode
is off. -/
def run_pipeline (salt : String) (now : PyDatetime) (mailOk : String → String → Bool)
    (sender_email sender_name : String) (open_rows : List Row)
    (contact_emails : List String) (fileLedger : Ledger)
    (force_send dev_mode : Bool) : RunResult :=
  if open_rows.isEmpty then ⟨[], 0, [], none, none⟩
  else
    let emails := if dev_mode then [DEV_EMAIL] else contact_emails
    let pruned : Except PyErr Ledger :=
      if dev_mode then .ok [] else prune_ledger now 90 fileLedger
    match pruned with
    | .error e => ⟨[], 0, [], none, some e⟩
    | .ok ledger0 =>
      let ro := processRows salt force_send dev_mode now mailOk sender_email sender_name
        emails open_rows ledger0
      ⟨ro.sends, ro.cnt, ro.ledger,
        if ro.err = none ∧ ro.cnt ≠ 0 ∧ dev_mode = false then some ro.ledger else none,
        ro.err⟩

/-- SHA-256 test vector, validating the embedding of `hashlib.sha256`. -/
theorem sha256HexS_abc :
    sha256HexS "abc" = "ba7816bf8f01cfea414140de5dae2223b00361a396177a9cb410ff61f20015ad" := by
  decide

/-- HMAC-SHA256 test vector, validating the embedding of `hmac_hash`. -/
theorem hmac_hash_vector :
    hmac_hash "salt" "u@example.com|A|2026-01-01"
      = "e082955b792fbc748067c16bfb6a67dd85fa6ff8a446584e0b95424b17303468" := by
  decide

/-! ## Concrete fixtures used by witnesses and counterexamples -/

/-- The offering row from the repository's own test `test_ics.py`. -/
def hfilRow : Row :=
  ⟨some "HFIL", some "Hotel Forest Inn Limited", some "2026-02-05",
   some "2026-02-09", some "NIC Asia Capital Limited", some "IPO"⟩

/-- A fixed run clock: 2026-02-01 00:00:00 UTC. -/
def now0 : PyDatetime := ⟨2026, 2, 1, 0, 0, 0, 0, some 0⟩

/-- An offering whose Closing Date is present but not an ISO date. -/
def badRow : Row :=
  ⟨some "BAD", some "Bad Co", some "2026-02-05", some "not-a-date", some "X", some "IPO"⟩

/-- A mailer oracle whose transport always succeeds. -/
def trueMail : String → String → Bool := fun _ _ => true

/-! ## Lemmas: escaping (claim C6) -/

theorem pyReplace1_cons (p : Char) (r : List Char) (c : Char) (l : List Char) :
    pyReplace1 p r (c :: l) = (if c = p then r else [c]) ++ pyReplace1 p r l := by
  simp [pyReplace1]

theorem pyReplace1_append (p : Char) (r : List Char) (a b : List Char) :
    pyReplace1 p r (a ++ b) = pyReplace1 p r a ++ pyReplace1 p r b := by
  simp [pyReplace1]

theorem icsEscapeL_append (a b : List Char) :
    icsEscapeL (a ++ b) = icsEscapeL a ++ icsEscapeL b := by
  simp [icsEscapeL, pyReplace1_append]

theorem icsEscapeL_single (c : Char) : icsEscapeL [c] = icsEscapeChar c := by
  by_cases h1 : c = '\\'
  · subst h1; rfl
  · by_cases h2 : c = ';'
    · subst h2; rfl
    · by_cases h3 : c = ','
      · subst h3; rfl
      · by_cases h4 : c = '\n'
        · subst h4; rfl
        · simp [icsEscapeL, pyReplace1, icsEscapeChar, h1, h2, h3, h4]

theorem icsEscapeL_eq (l : List Char) : icsEscapeL l = l.flatMap icsEscapeChar := by
  induction l with
  | nil => rfl
  | cons c l ih =>
    have h : c :: l = [c] ++ l := rfl
    rw [h, icsEscapeL_append, icsEscapeL_single, ih]
    simp

theorem icsEscapeChar_ne_nil (c : Char) : icsEscapeChar c ≠ [] := by
  by_cases h1 : c = '\\'
  · subst h1; simp [icsEscapeChar]
  · by_cases h2 : c = ';'
    · subst h2; simp [icsEscapeChar]
    · by_cases h3 : c = ','
      · subst h3; simp [icsEscapeChar]
      · by_cases h4 : c = '\n'
        · subst h4; simp [icsEscapeChar]
        · simp [icsEscapeChar, h1, h2, h3, h4]

theorem icsUnescapeL_flatMap (l : List Char) :
    icsUnescapeL (l.flatMap icsEscapeChar) = l := by
  induction l with
  | nil => rfl
  | cons c l ih =>
    have hc : (c :: l).flatMap icsEscapeChar = icsEscapeChar c ++ l.flatMap icsEscapeChar := by
      simp
    rw [hc]
    by_cases h1 : c = '\\'
    · subst h1; simpa [icsEscapeChar, icsUnescapeL] using ih
    · by_cases h2 : c = ';'
      · subst h2; simpa [icsEscapeChar, icsUnescapeL] using ih
      · by_cases h3 : c = ','
        · subst h3; simpa [icsEscapeChar, icsUnescapeL] using ih
        · by_cases h4 : c = '\n'
          · subst h4; simpa [icsEscapeChar, icsUnescapeL] using ih
          · have he : icsEscapeChar c = [c] := by simp [icsEscapeChar, h1, h2, h3, h4]
            rw [he]
            cases l with
            | nil => simp [icsUnescapeL]
            | cons d l2 =>
              have hd : (d :: l2).flatMap icsEscapeChar
                  = icsEscapeChar d ++ l2.flatMap icsEscapeChar := by simp
              obtain ⟨e, t, het⟩ : ∃ e t, icsEscapeChar d = e :: t := by
                cases hh : icsEscapeChar d with
                | nil => exact absurd hh (icsEscapeChar_ne_nil d)
                | cons e t => exact ⟨e, t, rfl⟩
              have hshape : (d :: l2).flatMap icsEscapeChar
                  = e :: (t ++ l2.flatMap icsEscapeChar) := by
                rw [hd, het]; simp
              rw [hshape]
              simp only [icsUnescapeL]
              rw [if_neg h1, ← hshape, ih]

/-- C6: `ics_escape` applies the four replacement rules backslash-first, so
it acts independently on each character (no double escaping), and the
standard calendar-text unescape inverts it on every input string. -/
theorem claim_C6 (s : String) :
    icsUnescape (ics_escape s) = s ∧
      ics_escape s = String.mk (s.data.flatMap icsEscapeChar) := by
  constructor
  · show String.mk (icsUnescapeL (icsEscapeL s.data)) = s
    rw [icsEscapeL_eq, icsUnescapeL_flatMap]
  · show String.mk (icsEscapeL s.data) = _
    rw [icsEscapeL_eq]

/-! ## Claim C7: `load_ledger` -/

/-- C7 counterexample: a persisted file holding valid JSON that is *not*
the expected ledger structure (here a JSON array) makes `load_ledger`
return that value successfully instead of failing. -/
theorem claim_C7_counterexample :
    isLedgerShape (Json.arr []) = false ∧
      load_ledger (LedgerFile.parsed (Json.arr [])) = .ok (Json.arr []) :=
  ⟨rfl, rfl⟩

/-- C7 (amended): `load_ledger` returns an empty mapping when no file
exists and fails when the file is not valid JSON; valid JSON of an
unexpected shape is returned as-is without any structure validation. -/
theorem claim_C7 :
    load_ledger .absent = .ok (Json.obj []) ∧
      load_ledger .invalid = .error .valueErr ∧
      ∀ j, load_ledger (.parsed j) = .ok j :=
  ⟨rfl, rfl, fun _ => rfl⟩

/-! ## Claim C4: the golden calendar case -/

/-- An offering row with Closing Date 2026-02-09 and Type IPO (the spec's
golden case; other fields arbitrary). -/
def goldenRow (symbol company opening im : String) : Row :=
  ⟨some symbol, some company, some opening, some "2026-02-09", some im, some "IPO"⟩

/-- C4: for any offering of Type IPO with Closing Date `2026-02-09`,
`build_ics` succeeds, the event runs 03:15-04:15 UTC (09:00-10:00 at the
fixed offset UTC+05:45, a constant of the code, `NEPAL_TZ`), formatted as
`YYYYMMDDTHHMMSSZ`, and the summary line is exactly
`SUMMARY:Final Day: IPO <Company> (<Symbol>)` with calendar escaping. -/
theorem claim_C4 (company symbol opening im recipient orgE orgN issue_id : String)
    (now : PyDatetime) :
    build_ics (goldenRow symbol company opening im) issue_id recipient orgE orgN now
        = .ok (fold_ics (icsDocument (goldenRow symbol company opening im) issue_id
            recipient orgE orgN now (2026, 2, 9))) ∧
      "DTSTART:20260209T031500Z"
          ∈ icsContentLines (goldenRow symbol company opening im) issue_id recipient
              orgE orgN now (2026, 2, 9) ∧
      "DTEND:20260209T041500Z"
          ∈ icsContentLines (goldenRow symbol company opening im) issue_id recipient
              orgE orgN now (2026, 2, 9) ∧
      ("SUMMARY:" ++ ics_escape ("Final Day: IPO " ++ company ++ " (" ++ symbol ++ ")"))
          ∈ icsContentLines (goldenRow symbol company opening im) issue_id recipient
              orgE orgN now (2026, 2, 9) ∧
      NEPAL_TZ = 5 * 60 + 45 := by
  refine ⟨rfl, ?_, ?_, ?_, rfl⟩
  · exact .tail _ (.tail _ (.tail _ (.tail _ (.tail _ (.tail _ (.tail _ (.tail _ (.tail _
      (.tail _ (.tail _ (.tail _ (.head _))))))))))))
  · exact .tail _ (.tail _ (.tail _ (.tail _ (.tail _ (.tail _ (.tail _ (.tail _ (.tail _
      (.tail _ (.tail _ (.tail _ (.tail _ (.head _)))))))))))))
  · have hlit : ("Final Day: " ++ "IPO" ++ " " : String) = "Final Day: IPO " := rfl
    have h1 : ("SUMMARY:" ++ ics_escape ("Final Day: " ++ "IPO" ++ " " ++ company ++
          " (" ++ symbol ++ ")"))
        ∈ icsContentLines (goldenRow symbol company opening im) issue_id recipient
            orgE orgN now (2026, 2, 9) :=
      .tail _ (.tail _ (.tail _ (.tail _ (.tail _ (.tail _ (.tail _ (.tail _ (.tail _
        (.tail _ (.head _))))))))))
    rw [← hlit]
    exact h1

/-! ## Lemmas: pruning (claims C3, C10) -/

theorem awareTs_of_keep (cutoff : Int) (ts : String) (h : keepEntry cutoff ts = true) :
    awareTs ts = true := by
  cases hp : pyFromIso ts with
  | none => simp [keepEntry, hp] at h
  | some d =>
    simp only [keepEntry, hp, Bool.and_eq_true] at h
    simp [awareTs, hp, h.1]

theorem pruneBucket_char (cutoff : Int) (b : Bucket)
    (H : ∀ e ∈ b, awareTs e.2 = true) :
    pruneBucket cutoff b = .ok (b.filter (fun e => keepEntry cutoff e.2)) := by
  induction b with
  | nil => rfl
  | cons x rest ih =>
    obtain ⟨k, ts⟩ := x
    have hhead : awareTs ts = true := H (k, ts) (List.Mem.head _)
    have htail : ∀ e ∈ rest, awareTs e.2 = true := fun y hy => H y (List.Mem.tail _ hy)
    cases hp : pyFromIso ts with
    | none =>
      have hk : keepEntry cutoff ts = false := by simp [keepEntry, hp]
      simp [pruneBucket, hp, ih htail, List.filter_cons, hk]
    | some d =>
      have hoff : d.offset.isSome = true := by simpa [awareTs, hp] using hhead
      obtain ⟨o, ho⟩ := Option.isSome_iff_exists.mp hoff
      have hcmp : pyLtCutoff d cutoff = .ok (decide (toUtcMicros d < cutoff)) := by
        simp [pyLtCutoff, ho]
      by_cases hlt : toUtcMicros d < cutoff
      · have hk : keepEntry cutoff ts = false := by
          simp only [keepEntry, hp, Bool.and_eq_false_iff]
          right
          simpa using hlt
        simp [pruneBucket, hp, hcmp, hlt, ih htail, List.filter_cons, hk]
      · have hk : keepEntry cutoff ts = true := by
          simp only [keepEntry, hp, Bool.and_eq_true]
          exact ⟨hoff, by simpa using hlt⟩
        simp [pruneBucket, hp, hcmp, hlt, ih htail, List.filter_cons, hk]

theorem prune_ledger_char (now : PyDatetime) (days : Nat) (L : Ledger)
    (H : ∀ p ∈ L, ∀ e ∈ p.2, awareTs e.2 = true) :
    prune_ledger now days L = .ok (pruneSpec (cutoffMicros now days) L) := by
  induction L with
  | nil => rfl
  | cons q rest ih =>
    obtain ⟨id, b⟩ := q
    have hb := pruneBucket_char (cutoffMicros now days) b
      (fun e he => H (id, b) (List.Mem.head _) e he)
    have ht : ∀ q ∈ rest, ∀ e ∈ q.2, awareTs e.2 = true :=
      fun q hq => H q (List.Mem.tail _ hq)
    simp [prune_ledger, hb, ih ht, pruneSpec]

theorem pruneSpec_aware (cutoff : Int) (L : Ledger) :
    ∀ p ∈ pruneSpec cutoff L, ∀ e ∈ p.2, awareTs e.2 = true := by
  induction L with
  | nil => intro p hp; simp [pruneSpec] at hp
  | cons q rest ih =>
    obtain ⟨id, b⟩ := q
    intro p hp e he
    simp only [pruneSpec] at hp
    by_cases hemp : (b.filter (fun e => keepEntry cutoff e.2)).isEmpty
    · rw [if_pos hemp] at hp
      exact ih p hp e he
    · rw [if_neg hemp] at hp
      cases hp with
      | head =>
        exact awareTs_of_keep cutoff e.2 (List.mem_filter.mp he).2
      | tail _ hp2 => exact ih p hp2 e he

theorem pruneSpec_idem (cutoff : Int) (L : Ledger) :
    pruneSpec cutoff (pruneSpec cutoff L) = pruneSpec cutoff L := by
  induction L with
  | nil => rfl
  | cons q rest ih =>
    obtain ⟨id, b⟩ := q
    by_cases hemp : (b.filter (fun e => keepEntry cutoff e.2)).isEmpty
    · simp [pruneSpec, hemp, ih]
    · have hff : (b.filter (fun e => keepEntry cutoff e.2)).filter
          (fun e => keepEntry cutoff e.2) = b.filter (fun e => keepEntry cutoff e.2) :=
        List.filter_eq_self.mpr (fun a ha => (List.mem_filter.mp ha).2)
      simp [pruneSpec, hemp, ih, hff]

/-- C3: for a ledger whose parsable timestamps are all offset-aware (see
C10 for why this is needed), `prune_ledger` succeeds and removes exactly
the records whose timestamp is unparsable or strictly before
`now - retentionDays` (records at or after the cutoff are retained:
`keepEntry`), dropping offering entries left empty; and for the same `now`,
pruning the pruned ledger returns it unchanged (idempotence). -/
theorem claim_C3 (now : PyDatetime) (days : Nat) (L : Ledger)
    (H : ∀ p ∈ L, ∀ e ∈ p.2, awareTs e.2 = true) :
    prune_ledger now days L = .ok (pruneSpec (cutoffMicros now days) L) ∧
      prune_ledger now days (pruneSpec (cutoffMicros now days) L)
        = .ok (pruneSpec (cutoffMicros now days) L) := by
  refine ⟨prune_ledger_char now days L H, ?_⟩
  have h2 := prune_ledger_char now days (pruneSpec (cutoffMicros now days) L)
    (pruneSpec_aware _ L)
  rw [h2, pruneSpec_idem]

def ledgerC3 : Ledger :=
  [("A", [("k1", "2026-01-01T00:00:00+00:00"), ("k2", "2025-01-01T00:00:00+00:00"),
          ("k3", "garbage")]),
   ("B", [("k4", "2020-01-01T00:00:00+00:00")])]

/-- Witness for C3 at a concrete ledger and clock. -/
theorem claim_C3_witness :
    prune_ledger now0 90 ledgerC3 = .ok (pruneSpec (cutoffMicros now0 90) ledgerC3) ∧
      prune_ledger now0 90 (pruneSpec (cutoffMicros now0 90) ledgerC3)
        = .ok (pruneSpec (cutoffMicros now0 90) ledgerC3) :=
  claim_C3 now0 90 ledgerC3 (by decide)

theorem pruneBucket_naive (cutoff : Int) (b : Bucket)
    (h : ∃ e ∈ b, awareTs e.2 = false) :
    pruneBucket cutoff b = .error .typeErr := by
  induction b with
  | nil => simp at h
  | cons x rest ih =>
    obtain ⟨k, ts⟩ := x
    obtain ⟨w, hw, hwa⟩ := h
    cases hp : pyFromIso ts with
    | none =>
      have hw' : w ∈ rest := by
        cases hw with
        | head =>
          exfalso
          have : awareTs ts = true := by simp [awareTs, hp]
          rw [show ((k, ts) : String × String).2 = ts from rfl] at hwa
          exact absurd this (by simp [hwa])
        | tail _ h2 => exact h2
      simp [pruneBucket, hp, ih ⟨w, hw', hwa⟩]
    | some d =>
      cases ho : d.offset with
      | none => simp [pruneBucket, hp, pyLtCutoff, ho]
      | some o =>
        have hw' : w ∈ rest := by
          cases hw with
          | head =>
            exfalso
            have : awareTs ts = true := by simp [awareTs, hp, ho]
            rw [show ((k, ts) : String × String).2 = ts from rfl] at hwa
            exact absurd this (by simp [hwa])
          | tail _ h2 => exact h2
        have hrec := ih ⟨w, hw', hwa⟩
        have hcmp : pyLtCutoff d cutoff = .ok (decide (toUtcMicros d < cutoff)) := by
          simp [pyLtCutoff, ho]
        by_cases hlt : toUtcMicros d < cutoff
        · simp [pruneBucket, hp, hcmp, hlt, hrec]
        · simp [pruneBucket, hp, hcmp, hlt, hrec]

theorem prune_ledger_naive (now : PyDatetime) (days : Nat) (L : Ledger)
    (h : ∃ p ∈ L, ∃ e ∈ p.2, awareTs e.2 = false) :
    prune_ledger now days L = .error .typeErr := by
  induction L with
  | nil => simp at h
  | cons q rest ih =>
    obtain ⟨id, b⟩ := q
    obtain ⟨p, hp, e, he, hea⟩ := h
    by_cases hb : ∃ e ∈ b, awareTs e.2 = false
    · simp [prune_ledger, pruneBucket_naive _ b hb]
    · have hall : ∀ x ∈ b, awareTs x.2 = true := by
        intro x hx
        by_contra hxf
        exact hb ⟨x, hx, by simpa using hxf⟩
      have hpr : p ∈ rest := by
        cases hp with
        | head => exact absurd ⟨e, he, hea⟩ hb
        | tail _ h2 => exact h2
      simp [prune_ledger, pruneBucket_char _ b hall, ih ⟨p, hpr, e, he, hea⟩]

/-- C10: `prune_ledger` only terminates normally when every timestamp in
the ledger fails to parse or parses offset-aware: one offset-naive
timestamp makes the comparison with the aware cutoff raise `TypeError`,
aborting the prune and — since pruning happens at the start of a
non-dev run with open rows — the whole run. -/
theorem claim_C10 (now : PyDatetime) (L : Ledger)
    (h : ∃ p ∈ L, ∃ e ∈ p.2, awareTs e.2 = false) :
    (∀ days, prune_ledger now days L = .error .typeErr) ∧
      ∀ salt mailOk se sn contacts force (row : Row) (rows : List Row),
        (run_pipeline salt now mailOk se sn (row :: rows) contacts L force false).error
          = some .typeErr := by
  refine ⟨fun days => prune_ledger_naive now days L h, ?_⟩
  intro salt mailOk se sn contacts force row rows
  simp [run_pipeline, prune_ledger_naive now 90 L h]

/-- Witness for C10: the ledger holding the parsable offset-naive
timestamp `2026-01-01T00:00:00`. -/
theorem claim_C10_witness :
    prune_ledger now0 90 [("A", [("k", "2026-01-01T00:00:00")])] = .error .typeErr ∧
      (run_pipeline "salt" now0 trueMail "s@x.com" "S" [hfilRow] ["u@example.com"]
          [("A", [("k", "2026-01-01T00:00:00")])] false false).error = some .typeErr :=
  ⟨(claim_C10 now0 [("A", [("k", "2026-01-01T00:00:00")])] (by decide)).1 90,
   (claim_C10 now0 [("A", [("k", "2026-01-01T00:00:00")])] (by decide)).2
     "salt" trueMail "s@x.com" "S" ["u@example.com"] false hfilRow []⟩

/-! ## Lemmas: association lists and the send loop (claims C1, C8, C9) -/

theorem containsKey_of_mem {b : Bucket} {k v : String} (h : (k, v) ∈ b) :
    containsKey b k = true := by
  induction b with
  | nil => simp at h
  | cons x rest ih =>
    cases h with
    | head => simp [containsKey, lookupA]
    | tail _ h2 =>
      obtain ⟨k0, v0⟩ := x
      by_cases hk : k0 = k
      · simp [containsKey, lookupA, hk]
      · simpa [containsKey, lookupA, hk] using ih h2

theorem lookupA_insertA_self {α : Type} (l : List (String × α)) (k : String) (v : α) :
    lookupA (insertA l k v) k = some v := by
  induction l with
  | nil => simp [insertA, lookupA]
  | cons x rest ih =>
    obtain ⟨k0, v0⟩ := x
    by_cases hk : k0 = k
    · simp [insertA, hk, lookupA]
    · simp [insertA, hk, lookupA, ih]

theorem lookupA_insertA_ne {α : Type} (l : List (String × α)) (k k' : String) (v : α)
    (h : k' ≠ k) : lookupA (insertA l k' v) k = lookupA l k := by
  induction l with
  | nil => simp [insertA, lookupA, h]
  | cons x rest ih =>
    obtain ⟨k0, v0⟩ := x
    by_cases hk : k0 = k'
    · subst hk; simp [insertA, lookupA, h]
    · by_cases hk0 : k0 = k <;> simp [insertA, hk, lookupA, hk0, ih, Ne.symm h]

theorem containsKey_insertA (b : Bucket) (k k' v : String)
    (h : containsKey b k = true) : containsKey (insertA b k' v) k = true := by
  by_cases hk : k' = k
  · subst hk; simp [containsKey, lookupA_insertA_self]
  · simpa [containsKey, lookupA_insertA_ne b k k' v hk] using h

theorem insertA_ne_nil {α : Type} (l : List (String × α)) (k : String) (v : α) :
    insertA l k v ≠ [] := by
  cases l with
  | nil => simp [insertA]
  | cons x rest =>
    obtain ⟨k0, v0⟩ := x
    by_cases hk : k0 = k <;> simp [insertA, hk]

/-- Every pair recorded in the send trace of one row's email loop carries
that row's offering identity. -/
theorem processEmails_sends_fst (salt : String) (force dev : Bool) (now : PyDatetime)
    (mailOk : String → String → Bool) (se sn : String) (row : Row) (rid : String) :
    ∀ (emails : List String) (b : Bucket),
      ∀ p ∈ (processEmails salt force dev now mailOk se sn row rid emails b).sends,
        p.1 = rid := by
  intro emails
  induction emails with
  | nil => intro b p hp; simp [processEmails] at hp
  | cons x rest ih =>
    intro b p hp
    simp only [processEmails] at hp
    cases hbi : build_ics row rid x se sn now with
    | error er => rw [hbi] at hp; simp at hp
    | ok s =>
      rw [hbi] at hp
      simp only at hp
      by_cases hskip : decideSkip dev force b (hmac_hash salt (x ++ "|" ++ rid)) = true
      · rw [if_pos hskip] at hp
        exact ih b p hp
      · rw [if_neg hskip] at hp
        by_cases hmail : mailOk rid x = true
        · rw [if_pos hmail] at hp
          simp only [List.mem_cons] at hp
          cases hp with
          | inl hp2 => rw [hp2]
          | inr hp2 => exact ih _ p hp2
        · rw [if_neg hmail] at hp
          simp at hp

/-- The dedupe-key suppression lemma for one row's email loop (force-send
and dev mode off): if the bucket already contains the dedupe key of
`(recipient e, offering id)`, the key stays present and `(id, e)` is never
sent. -/
theorem processEmails_skip (salt : String) (now : PyDatetime)
    (mailOk : String → String → Bool) (se sn : String) (row : Row) (id e : String) :
    ∀ (emails : List String) (b : Bucket),
      containsKey b (hmac_hash salt (e ++ "|" ++ id)) = true →
      containsKey (processEmails salt false false now mailOk se sn row id emails b).bucket
          (hmac_hash salt (e ++ "|" ++ id)) = true ∧
        (id, e) ∉ (processEmails salt false false now mailOk se sn row id emails b).sends := by
  intro emails
  induction emails with
  | nil => intro b h; exact ⟨h, by simp [processEmails]⟩
  | cons x rest ih =>
    intro b h
    cases hbi : build_ics row id x se sn now with
    | error er =>
      constructor
      · simp [processEmails, hbi, h]
      · simp [processEmails, hbi]
    | ok s =>
      by_cases hskip : decideSkip false false b (hmac_hash salt (x ++ "|" ++ id)) = true
      · have hr := ih b h
        constructor
        · simpa [processEmails, hbi, hskip] using hr.1
        · simpa [processEmails, hbi, hskip] using hr.2
      · by_cases hmail : mailOk id x = true
        · have hxe : x ≠ e := by
            intro hx
            subst hx
            exact hskip (by simp [decideSkip, h])
          have hb' := containsKey_insertA b (hmac_hash salt (e ++ "|" ++ id))
            (hmac_hash salt (x ++ "|" ++ id)) (pyIsoFormat now) h
          have hr := ih (insertA b (hmac_hash salt (x ++ "|" ++ id)) (pyIsoFormat now)) hb'
          constructor
          · simpa [processEmails, hbi, hskip, hmail] using hr.1
          · simp only [processEmails, hbi, hskip, hmail]
            simp only [Bool.false_eq_true, if_false, if_true, List.mem_cons]
            intro hor
            cases hor with
            | inl h2 =>
              exact hxe (by injection h2 with _ h3; exact h3.symm)
            | inr h2 => exact hr.2 h2
        · constructor
          · simp [processEmails, hbi, hskip, hmail, h]
          · simp [processEmails, hbi, hskip, hmail]

/-- The email loop never empties a bucket. -/
theorem processEmails_bucket_mono (salt : String) (force dev : Bool) (now : PyDatetime)
    (mailOk : String → String → Bool) (se sn : String) (row : Row) (rid : String) :
    ∀ (emails : List String) (b : Bucket), b ≠ [] →
      (processEmails salt force dev now mailOk se sn row rid emails b).bucket ≠ [] := by
  intro emails
  induction emails with
  | nil => intro b h; simpa [processEmails] using h
  | cons x rest ih =>
    intro b h
    cases hbi : build_ics row rid x se sn now with
    | error er => simpa [processEmails, hbi] using h
    | ok s =>
      by_cases hskip : decideSkip dev force b (hmac_hash salt (x ++ "|" ++ rid)) = true
      · simpa [processEmails, hbi, hskip] using ih b h
      · by_cases hmail : mailOk rid x = true
        · cases dev with
          | true => simpa [processEmails, hbi, hskip, hmail] using ih b h
          | false =>
            have hne := insertA_ne_nil b (hmac_hash salt (x ++ "|" ++ rid)) (pyIsoFormat now)
            simpa [processEmails, hbi, hskip, hmail] using ih _ hne
        · simpa [processEmails, hbi, hskip, hmail] using h

/-- With dev mode off, at least one recipient, and a finished loop, the
written-back bucket is nonempty: the first recipient is either suppressed
(so the bucket already had its key) or sent and recorded. -/
theorem processEmails_bucket_nonempty (salt : String) (force : Bool) (now : PyDatetime)
    (mailOk : String → String → Bool) (se sn : String) (row : Row) (rid : String)
    (x : String) (xs : List String) (b : Bucket)
    (herr : (processEmails salt force false now mailOk se sn row rid (x :: xs) b).err = none) :
    (processEmails salt force false now mailOk se sn row rid (x :: xs) b).bucket ≠ [] := by
  cases hbi : build_ics row rid x se sn now with
  | error er => simp [processEmails, hbi] at herr
  | ok s =>
    by_cases hskip : decideSkip false force b (hmac_hash salt (x ++ "|" ++ rid)) = true
    · have hb : b ≠ [] := by
        intro hnil
        subst hnil
        simp [decideSkip, containsKey, lookupA] at hskip
      simpa [processEmails, hbi, hskip] using
        processEmails_bucket_mono salt force false now mailOk se sn row rid xs b hb
    · by_cases hmail : mailOk rid x = true
      · have hne := insertA_ne_nil b (hmac_hash salt (x ++ "|" ++ rid)) (pyIsoFormat now)
        simpa [processEmails, hbi, hskip, hmail] using
          processEmails_bucket_mono salt force false now mailOk se sn row rid xs _ hne
      · simp [processEmails, hbi, hskip, hmail] at herr

/-- With no recipients, no row ever sends. -/
theorem processRows_nil_emails (salt : String) (force dev : Bool) (now : PyDatetime)
    (mailOk : String → String → Bool) (se sn : String) :
    ∀ (rows : List Row) (L : Ledger),
      (processRows salt force dev now mailOk se sn [] rows L).cnt = 0 := by
  intro rows
  induction rows with
  | nil => intro L; simp [processRows]
  | cons row rest ih =>
    intro L
    cases hi : issue_id_from_row row with
    | none => simpa [processRows, hi] using ih L
    | some rid =>
      by_cases hcl : row.closingDate.getD "" = ""
      · simpa [processRows, hi, hcl] using ih L
      · simp [processRows, hi, hcl, processEmails, ih]

theorem inv_insertA (L : Ledger) (k : String) (v : Bucket)
    (hL : ∀ p ∈ L, p.2 ≠ []) (hv : v ≠ []) :
    ∀ p ∈ insertA L k v, p.2 ≠ [] := by
  induction L with
  | nil =>
    intro p hp
    simp [insertA] at hp
    subst hp
    exact hv
  | cons q rest ih =>
    obtain ⟨k0, v0⟩ := q
    intro p hp
    by_cases hk : k0 = k
    · rw [insertA, if_pos hk] at hp
      cases hp with
      | head => exact hv
      | tail _ h2 => exact hL p (List.Mem.tail _ h2)
    · rw [insertA, if_neg hk] at hp
      cases hp with
      | head => exact hL (k0, v0) (List.Mem.head _)
      | tail _ h2 =>
        exact ih (fun q hq => hL q (List.Mem.tail _ hq)) p h2

/-- With dev mode off and at least one recipient, the row loop preserves
"no offering entry has an empty bucket" as long as it finishes. -/
theorem processRows_inv (salt : String) (force : Bool) (now : PyDatetime)
    (mailOk : String → String → Bool) (se sn : String) (x : String) (xs : List String) :
    ∀ (rows : List Row) (L : Ledger), (∀ p ∈ L, p.2 ≠ []) →
      (processRows salt force false now mailOk se sn (x :: xs) rows L).err = none →
      ∀ p ∈ (processRows salt force false now mailOk se sn (x :: xs) rows L).ledger,
        p.2 ≠ [] := by
  intro rows
  induction rows with
  | nil => intro L hL _; simpa [processRows] using hL
  | cons row rest ih =>
    intro L hL herr
    cases hi : issue_id_from_row row with
    | none =>
      simp only [processRows, hi] at herr ⊢
      exact ih L hL herr
    | some rid =>
      by_cases hcl : row.closingDate.getD "" = ""
      · simp only [processRows, hi, if_pos hcl] at herr ⊢
        exact ih L hL herr
      · cases heo : (processEmails salt force false now mailOk se sn row rid (x :: xs)
            ((lookupA L rid).getD [])).err with
        | some er => simp [processRows, hi, hcl, heo] at herr
        | none =>
          have hbne := processEmails_bucket_nonempty salt force now mailOk se sn row rid
            x xs ((lookupA L rid).getD []) heo
          have hL' := inv_insertA L rid _ hL hbne
          simp only [processRows, hi, if_neg hcl, heo] at herr ⊢
          exact ih _ hL' herr

/-- A successful prune leaves no empty buckets. -/
theorem prune_ledger_inv (now : PyDatetime) (days : Nat) :
    ∀ (L R : Ledger), prune_ledger now days L = .ok R → ∀ p ∈ R, p.2 ≠ [] := by
  intro L
  induction L with
  | nil =>
    intro R h
    simp only [prune_ledger] at h
    cases h
    simp
  | cons q rest ih =>
    obtain ⟨id, b⟩ := q
    intro R h
    cases hpb : pruneBucket (cutoffMicros now days) b with
    | error er => simp [prune_ledger, hpb] at h
    | ok fb =>
      cases hpr : prune_ledger now days rest with
      | error er => simp [prune_ledger, hpb, hpr] at h
      | ok r =>
        by_cases hne : fb.isEmpty
        · simp only [prune_ledger, hpb, hpr, if_pos hne] at h
          cases h
          exact ih _ hpr
        · simp only [prune_ledger, hpb, hpr, if_neg hne] at h
          cases h
          intro p hp
          cases hp with
          | head => simpa [List.isEmpty_iff] using hne
          | tail _ h2 => exact ih _ hpr p h2

theorem pruneBucket_keeps (cutoff : Int) (k ts : String)
    (hk : keepEntry cutoff ts = true) :
    ∀ (b b' : Bucket), pruneBucket cutoff b = .ok b' → (k, ts) ∈ b → (k, ts) ∈ b' := by
  intro b
  induction b with
  | nil => intro b' _ hm; simp at hm
  | cons e0 rest ih =>
    obtain ⟨k0, t0⟩ := e0
    intro b' h hm
    cases hm with
    | head =>
      cases hp : pyFromIso ts with
      | none => simp [keepEntry, hp] at hk
      | some d =>
        have h2 := hk
        simp only [keepEntry, hp, Bool.and_eq_true] at h2
        obtain ⟨hoff, hle⟩ := h2
        obtain ⟨o, ho⟩ := Option.isSome_iff_exists.mp hoff
        have hnlt : ¬(toUtcMicros d < cutoff) := by
          have := of_decide_eq_true hle
          omega
        have hcmp : pyLtCutoff d cutoff = .ok false := by
          simp [pyLtCutoff, ho, hnlt]
        simp only [pruneBucket, hp, hcmp] at h
        cases hrec : pruneBucket cutoff rest with
        | error er => rw [hrec] at h; cases h
        | ok r =>
          rw [hrec] at h
          cases h
          exact List.Mem.head _
    | tail _ hm2 =>
      cases hp : pyFromIso t0 with
      | none =>
        simp only [pruneBucket, hp] at h
        exact ih b' h hm2
      | some d =>
        cases hcm : pyLtCutoff d cutoff with
        | error er => simp [pruneBucket, hp, hcm] at h
        | ok bb =>
          cases bb with
          | true =>
            simp only [pruneBucket, hp, hcm] at h
            exact ih b' h hm2
          | false =>
            simp only [pruneBucket, hp, hcm] at h
            cases hrec : pruneBucket cutoff rest with
            | error er => rw [hrec] at h; cases h
            | ok r =>
              rw [hrec] at h
              cases h
              exact List.Mem.tail _ (ih r hrec hm2)

theorem prune_ledger_keeps (now : PyDatetime) (days : Nat) (id k ts : String)
    (hk : keepEntry (cutoffMicros now days) ts = true) :
    ∀ (L R : Ledger) (b : Bucket), prune_ledger now days L = .ok R →
      lookupA L id = some b → (k, ts) ∈ b →
      ∃ b', lookupA R id = some b' ∧ containsKey b' k = true := by
  intro L
  induction L with
  | nil => intro R b _ hl; simp [lookupA] at hl
  | cons q rest ih =>
    obtain ⟨id0, b0⟩ := q
    intro R b h hl hm
    by_cases hid : id0 = id
    · subst hid
      have hb0 : b0 = b := by simpa [lookupA] using hl
      subst hb0
      cases hpb : pruneBucket (cutoffMicros now days) b0 with
      | error er => simp [prune_ledger, hpb] at h
      | ok fb =>
        have hmem : (k, ts) ∈ fb := pruneBucket_keeps _ k ts hk b0 fb hpb hm
        cases hpr : prune_ledger now days rest with
        | error er => simp [prune_ledger, hpb, hpr] at h
        | ok r =>
          have hne : fb.isEmpty = false := by
            cases fb with
            | nil => simp at hmem
            | cons a l => rfl
          simp only [prune_ledger, hpb, hpr, hne, Bool.false_eq_true, if_false] at h
          cases h
          exact ⟨fb, by simp [lookupA], containsKey_of_mem hmem⟩
    · have hl2 : lookupA rest id = some b := by simpa [lookupA, hid] using hl
      cases hpb : pruneBucket (cutoffMicros now days) b0 with
      | error er => simp [prune_ledger, hpb] at h
      | ok fb =>
        cases hpr : prune_ledger now days rest with
        | error er => simp [prune_ledger, hpb, hpr] at h
        | ok r =>
          obtain ⟨b', hb', hc'⟩ := ih r b hpr hl2 hm
          by_cases hne : fb.isEmpty
          · simp only [prune_ledger, hpb, hpr, if_pos hne] at h
            cases h
            exact ⟨b', hb', hc'⟩
          · simp only [prune_ledger, hpb, hpr, if_neg hne] at h
            cases h
            exact ⟨b', by simp [lookupA, hid, hb'], hc'⟩

/-- The row loop never sends to a pair whose dedupe key is in the ledger
(force-send and dev mode off). -/
theorem processRows_skip (salt : String) (now : PyDatetime)
    (mailOk : String → String → Bool) (se sn : String) (emails : List String)
    (id e : String) :
    ∀ (rows : List Row) (L : Ledger),
      (∃ b, lookupA L id = some b ∧
        containsKey b (hmac_hash salt (e ++ "|" ++ id)) = true) →
      (id, e) ∉ (processRows salt false false now mailOk se sn emails rows L).sends := by
  intro rows
  induction rows with
  | nil => intro L _; simp [processRows]
  | cons row rest ih =>
    intro L h
    obtain ⟨b, hlb, hcb⟩ := h
    cases hi : issue_id_from_row row with
    | none =>
      simp only [processRows, hi]
      exact ih L ⟨b, hlb, hcb⟩
    | some rid =>
      by_cases hcl : row.closingDate.getD "" = ""
      · simp only [processRows, hi, if_pos hcl]
        exact ih L ⟨b, hlb, hcb⟩
      · by_cases hrid : rid = id
        · subst hrid
          have hb0 : (lookupA L rid).getD [] = b := by rw [hlb]; rfl
          have hE := processEmails_skip salt now mailOk se sn row rid e emails b hcb
          cases herr : (processEmails salt false false now mailOk se sn row rid emails b).err with
          | some er =>
            simp only [processRows, hi, if_neg hcl, hb0, herr]
            exact hE.2
          | none =>
            have hInv : ∃ b', lookupA (insertA L rid (processEmails salt false false now
                mailOk se sn row rid emails b).bucket) rid = some b' ∧
                containsKey b' (hmac_hash salt (e ++ "|" ++ rid)) = true :=
              ⟨_, lookupA_insertA_self _ _ _, hE.1⟩
            have hrec := ih _ hInv
            simp only [processRows, hi, if_neg hcl, hb0, herr]
            intro hm
            rcases List.mem_append.mp hm with h1 | h2
            · exact hE.2 h1
            · exact hrec h2
        · have hfst := processEmails_sends_fst salt false false now mailOk se sn row rid
            emails ((lookupA L rid).getD [])
          have hInv : ∃ b', lookupA (insertA L rid (processEmails salt false false now
              mailOk se sn row rid emails ((lookupA L rid).getD [])).bucket) id = some b' ∧
              containsKey b' (hmac_hash salt (e ++ "|" ++ id)) = true :=
            ⟨b, by rw [lookupA_insertA_ne _ _ _ _ hrid]; exact hlb, hcb⟩
          cases herr : (processEmails salt false false now mailOk se sn row rid emails
              ((lookupA L rid).getD [])).err with
          | some er =>
            simp only [processRows, hi, if_neg hcl, herr]
            intro hm
            exact hrid (hfst _ hm).symm
          | none =>
            have hrec := ih _ hInv
            simp only [processRows, hi, if_neg hcl, herr]
            intro hm
            rcases List.mem_append.mp hm with h1 | h2
            · exact hrid (hfst _ h1).symm
            · exact hrec h2

/-- C1: the send-skip decision at pipeline.py line 306 fires exactly when
force-send is off, dev mode is off and the pair's dedupe key (the
HMAC-SHA256 hex digest of `recipient|offeringIdentity` under the salt) is
in the offering's bucket; consequently a run with force-send and dev mode
off, whose starting ledger holds that key under a timestamp surviving the
90-day prune, sends nothing to that (offering, recipient) pair. -/
theorem claim_C1 :
    (∀ (force dev : Bool) (b : Bucket) (k : String),
        decideSkip dev force b k = true ↔
          force = false ∧ dev = false ∧ containsKey b k = true) ∧
      ∀ (salt : String) (now : PyDatetime) (mailOk : String → String → Bool)
        (se sn e id ts : String) (rows : List Row) (contacts : List String)
        (L : Ledger) (b : Bucket),
        lookupA L id = some b →
        (hmac_hash salt (e ++ "|" ++ id), ts) ∈ b →
        keepEntry (cutoffMicros now 90) ts = true →
        (id, e) ∉ (run_pipeline salt now mailOk se sn rows contacts L false false).sends := by
  constructor
  · intro force dev b k
    cases force <;> cases dev <;> simp [decideSkip]
  · intro salt now mailOk se sn e id ts rows contacts L b hlb hm hk
    cases rows with
    | nil => simp [run_pipeline]
    | cons r0 rs =>
      cases hpr : prune_ledger now 90 L with
      | error er => simp [run_pipeline, hpr]
      | ok R =>
        obtain ⟨b', hb', hc'⟩ :=
          prune_ledger_keeps now 90 id (hmac_hash salt (e ++ "|" ++ id)) ts hk L R b hpr hlb hm
        have hs := processRows_skip salt now mailOk se sn contacts id e (r0 :: rs) R
          ⟨b', hb', hc'⟩
        simpa [run_pipeline, hpr] using hs

def rowA : Row :=
  ⟨some "A", some "Co", some "2026-01-01", some "2026-02-09", some "IM", some "IPO"⟩

def tsA : String := "2026-01-01T00:00:00+00:00"

def keyA : String := hmac_hash "salt" ("u@example.com" ++ "|" ++ "A|2026-01-01")

def ledgerC1 : Ledger := [("A|2026-01-01", [(keyA, tsA)])]

/-- Witness for C1 at a concrete ledger already containing the pair's key. -/
theorem claim_C1_witness :
    (decideSkip false false [] "k" = true ↔
        (false = false ∧ false = false ∧ containsKey [] "k" = true)) ∧
      ("A|2026-01-01", "u@example.com")
        ∉ (run_pipeline "salt" now0 trueMail "s@x.com" "S" [rowA] ["u@example.com"]
            ledgerC1 false false).sends :=
  ⟨claim_C1.1 false false [] "k",
   claim_C1.2 "salt" now0 trueMail "s@x.com" "S" "u@example.com" "A|2026-01-01" tsA
     [rowA] ["u@example.com"] ledgerC1 [(keyA, tsA)] rfl (List.Mem.head _) (by decide)⟩

/-- C8: a run that finishes persists the ledger iff something was sent and
dev mode is off; a dev-mode run saves nothing and its outcome is
independent of the persisted ledger (it is neither loaded nor pruned nor
written). -/
theorem claim_C8 (salt : String) (now : PyDatetime) (mailOk : String → String → Bool)
    (se sn : String) (rows : List Row) (contacts : List String) (fileLedger : Ledger)
    (force dev : Bool) :
    ((run_pipeline salt now mailOk se sn rows contacts fileLedger force dev).error = none →
      ((run_pipeline salt now mailOk se sn rows contacts fileLedger force dev).saved ≠ none ↔
        0 < (run_pipeline salt now mailOk se sn rows contacts fileLedger force dev).sentCount ∧
          dev = false)) ∧
      (dev = true →
        (run_pipeline salt now mailOk se sn rows contacts fileLedger force dev).saved = none ∧
          ∀ L', run_pipeline salt now mailOk se sn rows contacts L' force dev
            = run_pipeline salt now mailOk se sn rows contacts fileLedger force dev) := by
  cases rows with
  | nil =>
    constructor
    · intro _
      simp [run_pipeline]
    · intro _
      exact ⟨by simp [run_pipeline], fun L' => rfl⟩
  | cons r0 rs =>
    cases dev with
    | true =>
      constructor
      · intro _
        simp [run_pipeline]
      · intro _
        exact ⟨by simp [run_pipeline], fun L' => rfl⟩
    | false =>
      cases hpr : prune_ledger now 90 fileLedger with
      | error er =>
        constructor
        · intro he
          exfalso
          simp [run_pipeline, hpr] at he
        · intro hdev
          simp at hdev
      | ok R =>
        constructor
        · intro he
          have he' : (processRows salt force false now mailOk se sn contacts (r0 :: rs) R).err
              = none := by
            simpa [run_pipeline, hpr] using he
          by_cases hc : (processRows salt force false now mailOk se sn contacts (r0 :: rs) R).cnt
              = 0
          · simp [run_pipeline, hpr, he', hc]
          · simp [run_pipeline, hpr, he', hc, Nat.pos_of_ne_zero hc]
        · intro hdev
          simp at hdev

/-- Witness for C8 at a concrete dev-mode run. -/
theorem claim_C8_witness :
    (((run_pipeline "salt" now0 trueMail "s@x.com" "S" [hfilRow] ["u@example.com"] []
          false true).saved ≠ none) ↔
        (0 < (run_pipeline "salt" now0 trueMail "s@x.com" "S" [hfilRow] ["u@example.com"] []
          false true).sentCount ∧ true = false)) ∧
      (run_pipeline "salt" now0 trueMail "s@x.com" "S" [hfilRow] ["u@example.com"] []
          false true).saved = none ∧
      run_pipeline "salt" now0 trueMail "s@x.com" "S" [hfilRow] ["u@example.com"] ledgerC3
          false true
        = run_pipeline "salt" now0 trueMail "s@x.com" "S" [hfilRow] ["u@example.com"] []
          false true := by
  have h := claim_C8 "salt" now0 trueMail "s@x.com" "S" [hfilRow] ["u@example.com"] [] false true
  refine ⟨h.1 ?_, (h.2 rfl).1, (h.2 rfl).2 ledgerC3⟩
  decide

/-- C9: any ledger handed to `save_ledger` maps no offering to an empty
bucket: pruning removed emptied entries, and a bucket materialised by
`setdefault` either receives a record or the run does not reach the save. -/
theorem claim_C9 (salt : String) (now : PyDatetime) (mailOk : String → String → Bool)
    (se sn : String) (rows : List Row) (contacts : List String) (fileLedger : Ledger)
    (force dev : Bool) (Lsaved : Ledger)
    (h : (run_pipeline salt now mailOk se sn rows contacts fileLedger force dev).saved
      = some Lsaved) :
    ∀ p ∈ Lsaved, p.2 ≠ [] := by
  cases rows with
  | nil => simp [run_pipeline] at h
  | cons r0 rs =>
    cases dev with
    | true => simp [run_pipeline] at h
    | false =>
      cases hpr : prune_ledger now 90 fileLedger with
      | error er => simp [run_pipeline, hpr] at h
      | ok R =>
        simp only [run_pipeline, List.isEmpty_cons, Bool.false_eq_true, if_false, hpr] at h
        split at h
        next hcond =>
          obtain ⟨he, hcnt, -⟩ := hcond
          cases contacts with
          | nil =>
            exact absurd (processRows_nil_emails salt force false now mailOk se sn (r0 :: rs) R)
              hcnt
          | cons x xs =>
            have hInv := processRows_inv salt force now mailOk se sn x xs (r0 :: rs) R
              (prune_ledger_inv now 90 fileLedger R hpr) he
            injection h with h2
            rw [← h2]
            exact hInv
        next => cases h

def bucketW : Bucket :=
  [(hmac_hash "salt" ("u@example.com" ++ "|" ++ "HFIL|2026-02-05"), pyIsoFormat now0)]

def ledgerW : Ledger := [("HFIL|2026-02-05", bucketW)]

/-- Witness for C9 at a concrete run that persists its ledger. -/
theorem claim_C9_witness : ("HFIL|2026-02-05", bucketW).2 ≠ [] :=
  claim_C9 "salt" now0 trueMail "s@x.com" "S" [hfilRow] ["u@example.com"] [] false false
    ledgerW rfl ("HFIL|2026-02-05", bucketW) (List.Mem.head _)

/-! ## Claim C2: handling of unparsable closing dates -/

/-- An offering whose Closing Date is present but blank. -/
def blankRow : Row :=
  ⟨some "B", some "C", some "2026-01-01", some "", some "X", some "IPO"⟩

/-- C2 counterexample: with an unparsable (non-blank) Closing Date first in
the open rows, the run aborts with the uncaught `ValueError` and sends
nothing — the following valid offering, which on its own produces a send,
is never processed.  The claimed skip-and-continue behaviour does not
happen. -/
theorem claim_C2_counterexample :
    (run_pipeline "salt" now0 trueMail "s@x.com" "S" [badRow, hfilRow] ["u@example.com"]
        [] false false).error = some .valueErr ∧
      (run_pipeline "salt" now0 trueMail "s@x.com" "S" [badRow, hfilRow] ["u@example.com"]
        [] false false).sends = [] ∧
      (run_pipeline "salt" now0 trueMail "s@x.com" "S" [hfilRow] ["u@example.com"]
        [] false false).sends ≠ [] := by
  refine ⟨by decide, by decide, by decide⟩

/-- C2 (amended): an offering with a *blank* Closing Date is skipped and
the per-offering loop continues unchanged; an offering whose Closing Date
is present but unparsable makes `build_ics` raise inside the recipient
loop (whenever there is at least one recipient), which is not caught: no
invite is sent for it, nothing further is processed, and the run aborts
with the error. -/
theorem claim_C2 (salt : String) (force dev : Bool) (now : PyDatetime)
    (mailOk : String → String → Bool) (se sn : String) (emails : List String)
    (row : Row) (rest : List Row) (L : Ledger) :
    (row.closingDate.getD "" = "" →
      processRows salt force dev now mailOk se sn emails (row :: rest) L
        = processRows salt force dev now mailOk se sn emails rest L) ∧
    (∀ rid em ems, emails = em :: ems →
      issue_id_from_row row = some rid →
      row.closingDate.getD "" ≠ "" →
      parse_iso_date (row.closingDate.getD "") = none →
      processRows salt force dev now mailOk se sn emails (row :: rest) L
        = ⟨insertA L rid ((lookupA L rid).getD []), [], 0, some .valueErr⟩) := by
  constructor
  · intro hcl
    cases hi : issue_id_from_row row with
    | none => simp [processRows, hi]
    | some rid => simp [processRows, hi, hcl]
  · intro rid em ems hem hi hcl hp
    subst hem
    have hbi : build_ics row rid em se sn now = .error .valueErr := by
      simp [build_ics, hp]
    simp [processRows, hi, hcl, processEmails, hbi]

/-- Witness for C2 at concrete rows. -/
theorem claim_C2_witness :
    (processRows "salt" false false now0 trueMail "s@x.com" "S" ["u@example.com"]
        [blankRow] [] = processRows "salt" false false now0 trueMail "s@x.com" "S"
          ["u@example.com"] [] []) ∧
      processRows "salt" false false now0 trueMail "s@x.com" "S" ["u@example.com"]
          [badRow] []
        = ⟨insertA [] "BAD|2026-02-05" ((lookupA [] "BAD|2026-02-05").getD []), [], 0,
           some .valueErr⟩ :=
  ⟨(claim_C2 "salt" false false now0 trueMail "s@x.com" "S" ["u@example.com"] blankRow
      [] []).1 rfl,
   (claim_C2 "salt" false false now0 trueMail "s@x.com" "S" ["u@example.com"] badRow
      [] []).2 "BAD|2026-02-05" "u@example.com" [] rfl rfl (by decide) rfl⟩

/-! ## Lemmas: CRLF splitting, folding and unfolding (claim C5) -/

theorem splitCRLFL_ne_nil (l : List Char) : splitCRLFL l ≠ [] := by
  match l with
  | [] => simp [splitCRLFL]
  | [c] => simp [splitCRLFL]
  | c :: d :: rest =>
    by_cases hcd : c = '\r' ∧ d = '\n'
    · simp [splitCRLFL, hcd]
    · simp only [splitCRLFL, if_neg hcd]
      cases h : splitCRLFL (d :: rest) with
      | nil => simp
      | cons x xs => simp

/-- Prepends text onto the first line of a split. -/
def consHead (l : List Char) : List (List Char) → List (List Char)
  | [] => [l]
  | m :: ms => (l ++ m) :: ms

theorem splitCRLFL_append (l s : List Char) (h : '\r' ∉ l) :
    splitCRLFL (l ++ s) = consHead l (splitCRLFL s) := by
  induction l with
  | nil =>
    cases hs : splitCRLFL s with
    | nil => exact absurd hs (splitCRLFL_ne_nil s)
    | cons m ms => simp [consHead, hs]
  | cons c l ih =>
    have hc : c ≠ '\r' := fun hh => h (hh ▸ List.Mem.head _)
    have hl : '\r' ∉ l := fun hh => h (List.Mem.tail _ hh)
    cases hls : l ++ s with
    | nil =>
      have hl0 : l = [] := by
        cases l with
        | nil => rfl
        | cons a t => simp at hls
      have hs0 : s = [] := by
        subst hl0
        simpa using hls
      subst hl0
      subst hs0
      simp [splitCRLFL, consHead]
    | cons d t =>
      have hcd : ¬(c = '\r' ∧ d = '\n') := fun hh => hc hh.1
      have hstep : splitCRLFL (c :: (l ++ s)) = splitCRLFL (c :: d :: t) := by rw [hls]
      rw [show (c :: l) ++ s = c :: (l ++ s) from rfl, hstep]
      simp only [splitCRLFL, if_neg hcd]
      rw [← hls, ih hl]
      cases hs : splitCRLFL s with
      | nil => exact absurd hs (splitCRLFL_ne_nil s)
      | cons m ms => simp [consHead]

theorem splitCRLFL_self (l : List Char) (h : '\r' ∉ l) : splitCRLFL l = [l] := by
  have h2 := splitCRLFL_append l [] h
  simpa [splitCRLFL, consHead] using h2

theorem splitCRLFL_joinCRLFL :
    ∀ (L : List (List Char)), L ≠ [] → (∀ l ∈ L, '\r' ∉ l) →
      splitCRLFL (joinCRLFL L) = L := by
  intro L
  induction L with
  | nil => intro h; exact absurd rfl h
  | cons l L' ih =>
    intro _ hcr
    cases L' with
    | nil => exact splitCRLFL_self l (hcr l (List.Mem.head _))
    | cons m ms =>
      have hjoin : joinCRLFL (l :: m :: ms) = l ++ '\r' :: '\n' :: joinCRLFL (m :: ms) := rfl
      rw [hjoin, splitCRLFL_append _ _ (hcr l (List.Mem.head _))]
      have hsp : splitCRLFL ('\r' :: '\n' :: joinCRLFL (m :: ms))
          = [] :: splitCRLFL (joinCRLFL (m :: ms)) := by
        simp [splitCRLFL]
      rw [hsp, ih (by simp) (fun x hx => hcr x (List.Mem.tail _ hx))]
      simp [consHead]

theorem joinCRLFL_snoc :
    ∀ (M : List (List Char)) (m x : List Char),
      joinCRLFL (m :: (M ++ [x])) = joinCRLFL (m :: M) ++ '\r' :: '\n' :: x := by
  intro M
  induction M with
  | nil => intro m x; simp [joinCRLFL]
  | cons m2 M' ih =>
    intro m x
    have h1 : joinCRLFL (m :: m2 :: (M' ++ [x]))
        = m ++ '\r' :: '\n' :: joinCRLFL (m2 :: (M' ++ [x])) := rfl
    have h2 : joinCRLFL (m :: m2 :: M') = m ++ '\r' :: '\n' :: joinCRLFL (m2 :: M') := rfl
    simp only [List.cons_append]
    rw [h1, ih m2 x, h2]
    simp

theorem foldLineAux_ne_nil (fuel : Nat) (l : List Char) : foldLineAux fuel l ≠ [] := by
  cases fuel with
  | zero => simp [foldLineAux]
  | succ n =>
    by_cases h : l.length ≤ 70 <;> simp [foldLineAux, h]

theorem foldLineAux_length (fuel : Nat) :
    ∀ l : List Char, l.length ≤ fuel + 70 → ∀ p ∈ foldLineAux fuel l, p.length ≤ 70 := by
  induction fuel with
  | zero =>
    intro l hl p hp
    simp only [foldLineAux, List.mem_singleton] at hp
    subst hp
    simpa using hl
  | succ n ih =>
    intro l hl p hp
    by_cases h70 : l.length ≤ 70
    · simp only [foldLineAux, if_pos h70, List.mem_singleton] at hp
      subst hp
      exact h70
    · simp only [foldLineAux, if_neg h70] at hp
      cases hp with
      | head => simp [List.length_take]
      | tail _ hp2 =>
        apply ih (' ' :: l.drop 70) _ p hp2
        simp only [List.length_cons, List.length_drop]
        omega

theorem foldLineAux_chars (fuel : Nat) :
    ∀ (l p : List Char), p ∈ foldLineAux fuel l → ∀ x ∈ p, x ∈ l ∨ x = ' ' := by
  induction fuel with
  | zero =>
    intro l p hp x hx
    simp only [foldLineAux, List.mem_singleton] at hp
    subst hp
    exact Or.inl hx
  | succ n ih =>
    intro l p hp x hx
    by_cases h70 : l.length ≤ 70
    · simp only [foldLineAux, if_pos h70, List.mem_singleton] at hp
      subst hp
      exact Or.inl hx
    · simp only [foldLineAux, if_neg h70] at hp
      cases hp with
      | head => exact Or.inl (List.take_subset _ _ hx)
      | tail _ hp2 =>
        rcases ih (' ' :: l.drop 70) p hp2 x hx with h | h
        · cases h with
          | head => exact Or.inr rfl
          | tail _ h2 => exact Or.inl (List.drop_subset _ _ h2)
        · exact Or.inr h

theorem unfoldLines_foldLineAux (fuel : Nat) :
    ∀ (l : List Char) (X : List (List Char)), l.length ≤ fuel + 70 →
      unfoldLines (foldLineAux fuel l ++ X) = consLine l (unfoldLines X) := by
  induction fuel with
  | zero =>
    intro l X _
    rfl
  | succ n ih =>
    intro l X hl
    by_cases h70 : l.length ≤ 70
    · simp only [foldLineAux, if_pos h70]
      rfl
    · simp only [foldLineAux, if_neg h70, List.cons_append]
      have hstep : unfoldLines (l.take 70 :: (foldLineAux n (' ' :: l.drop 70) ++ X))
          = consLine (l.take 70) (unfoldLines (foldLineAux n (' ' :: l.drop 70) ++ X)) := rfl
      rw [hstep, ih (' ' :: l.drop 70) X (by simp only [List.length_cons, List.length_drop]; omega)]
      cases hu : unfoldLines X with
      | nil => simp [consLine, List.take_append_drop]
      | cons m ms =>
        by_cases hsp : m.head? = some ' '
        · cases m with
          | nil => simp at hsp
          | cons mc mt =>
            have hmc : mc = ' ' := by simpa using hsp
            subst hmc
            simp [consLine, ← List.append_assoc, List.take_append_drop]
        · simp [consLine, hsp, List.take_append_drop]

theorem unfoldLines_flatMap (L : List (List Char))
    (h : ∀ m ∈ L, m.head? ≠ some ' ') :
    unfoldLines (L.flatMap foldLine) = L := by
  induction L with
  | nil => rfl
  | cons l L' ih =>
    have hfl : (l :: L').flatMap foldLine = foldLine l ++ L'.flatMap foldLine := by simp
    rw [hfl, foldLine, unfoldLines_foldLineAux l.length l _ (by omega),
      ih (fun m hm => h m (List.Mem.tail _ hm))]
    cases hL' : L' with
    | nil => rfl
    | cons m ms =>
      have hm : m.head? ≠ some ' ' := h m (by rw [hL']; exact List.Mem.tail _ (List.Mem.head _))
      simp [consLine, hm]

theorem string_data_append (a b : String) : (a ++ b).data = a.data ++ b.data := by
  cases a
  cases b
  rfl

theorem hexDigitChar_ne_cr (n : Nat) : hexDigitChar n ≠ '\r' := by
  unfold hexDigitChar
  have h : n % 16 < 16 := Nat.mod_lt _ (by norm_num)
  revert h
  generalize n % 16 = k
  intro h
  interval_cases k <;> decide

theorem byteHex_no_cr (b : Nat) : '\r' ∉ byteHex b := by
  intro h
  simp only [byteHex, List.mem_cons, List.not_mem_nil, or_false] at h
  rcases h with h | h <;> exact hexDigitChar_ne_cr _ h.symm

theorem bytesToHex_no_cr (bs : List Nat) : '\r' ∉ (bytesToHex bs).data := by
  intro h
  rcases List.mem_flatMap.mp h with ⟨b, _, hb⟩
  exact byteHex_no_cr b hb

theorem sha256HexS_no_cr (s : String) : '\r' ∉ (sha256HexS s).data :=
  bytesToHex_no_cr _

theorem natToCharsAux_no_cr (fuel : Nat) : ∀ n : Nat, '\r' ∉ natToCharsAux fuel n := by
  induction fuel with
  | zero => intro n; simp [natToCharsAux]
  | succ k ih =>
    intro n
    by_cases h : n < 10
    · intro hc
      simp only [natToCharsAux, if_pos h, List.mem_singleton] at hc
      exact hexDigitChar_ne_cr n hc.symm
    · intro hc
      simp only [natToCharsAux, if_neg h] at hc
      rcases List.mem_append.mp hc with h2 | h2
      · exact ih (n / 10) h2
      · simp only [List.mem_singleton] at h2
        exact hexDigitChar_ne_cr _ h2.symm

theorem padChars_no_cr (w : Nat) (l : List Char) (h : '\r' ∉ l) :
    '\r' ∉ padChars w l := by
  intro hc
  rcases List.mem_append.mp hc with h2 | h2
  · have := List.eq_of_mem_replicate h2
    exact absurd this (by decide)
  · exact h h2

theorem strftimeZ_no_cr (d : PyDatetime) : '\r' ∉ (strftimeZ d).data := by
  intro h
  have h2 : '\r' ∈ padChars 4 (natToChars d.year) ++ padChars 2 (natToChars d.month) ++
      padChars 2 (natToChars d.day) ++ ['T'] ++ padChars 2 (natToChars d.hour) ++
      padChars 2 (natToChars d.minute) ++ padChars 2 (natToChars d.second) ++ ['Z'] := h
  rcases List.mem_append.mp h2 with h3 | h3
  rcases List.mem_append.mp h3 with h3 | h3
  rcases List.mem_append.mp h3 with h3 | h3
  rcases List.mem_append.mp h3 with h3 | h3
  rcases List.mem_append.mp h3 with h3 | h3
  rcases List.mem_append.mp h3 with h3 | h3
  rcases List.mem_append.mp h3 with h3 | h3
  · exact padChars_no_cr _ _ (natToCharsAux_no_cr _ _) h3
  · exact padChars_no_cr _ _ (natToCharsAux_no_cr _ _) h3
  · exact padChars_no_cr _ _ (natToCharsAux_no_cr _ _) h3
  · simp at h3
  · exact padChars_no_cr _ _ (natToCharsAux_no_cr _ _) h3
  · exact padChars_no_cr _ _ (natToCharsAux_no_cr _ _) h3
  · exact padChars_no_cr _ _ (natToCharsAux_no_cr _ _) h3
  · simp at h3

theorem icsEscape_no_cr (s : String) (h : '\r' ∉ s.data) :
    '\r' ∉ (ics_escape s).data := by
  intro hc
  have hc2 : '\r' ∈ s.data.flatMap icsEscapeChar := by
    have hc3 : '\r' ∈ icsEscapeL s.data := hc
    rwa [icsEscapeL_eq] at hc3
  rcases List.mem_flatMap.mp hc2 with ⟨c, hcm, hcc⟩
  by_cases h1 : c = '\\'
  · subst h1; simp [icsEscapeChar] at hcc
  · by_cases h2 : c = ';'
    · subst h2; simp [icsEscapeChar] at hcc
    · by_cases h3 : c = ','
      · subst h3; simp [icsEscapeChar] at hcc
      · by_cases h4 : c = '\n'
        · subst h4; simp [icsEscapeChar] at hcc
        · simp only [icsEscapeChar, if_neg h1, if_neg h2, if_neg h3, if_neg h4,
            List.mem_singleton] at hcc
          exact h (hcc ▸ hcm)

theorem append_no_cr (a b : String) (ha : '\r' ∉ a.data) (hb : '\r' ∉ b.data) :
    '\r' ∉ (a ++ b).data := by
  rw [string_data_append]
  intro h
  rcases List.mem_append.mp h with h2 | h2
  · exact ha h2
  · exact hb h2

/-- No logical line of a generated calendar document contains a carriage
return, provided the raw inputs do not (the hashed UID, formatted times and
escaped text never introduce one). -/
theorem icsContentLines_no_cr (row : Row) (issue_id recipient orgE orgN : String)
    (now : PyDatetime) (c : Nat × Nat × Nat)
    (h1 : '\r' ∉ (row.typ.getD "IPO").data)
    (h2 : '\r' ∉ (row.company.getD "").data)
    (h3 : '\r' ∉ (row.symbol.getD "").data)
    (h4 : '\r' ∉ (row.closingDate.getD "").data)
    (h5 : '\r' ∉ (row.issueManager.getD "").data)
    (h6 : '\r' ∉ recipient.data)
    (h7 : '\r' ∉ orgE.data)
    (h8 : '\r' ∉ orgN.data) :
    ∀ t ∈ icsContentLines row issue_id recipient orgE orgN now c, '\r' ∉ t.data := by
  intro t ht
  simp only [icsContentLines, List.mem_cons, List.not_mem_nil, or_false] at ht
  rcases ht with rfl|rfl|rfl|rfl|rfl|rfl|rfl|rfl|rfl|rfl|rfl|rfl|rfl|rfl|rfl|rfl|rfl|rfl|rfl
  · decide
  · decide
  · decide
  · decide
  · decide
  · decide
  · exact append_no_cr _ _ (by decide) (sha256HexS_no_cr issue_id)
  · exact append_no_cr _ _ (by decide) (strftimeZ_no_cr now)
  · exact append_no_cr _ _ (append_no_cr _ _ (append_no_cr _ _ (by decide)
      (icsEscape_no_cr orgN h8)) (by decide)) h7
  · exact append_no_cr _ _ (append_no_cr _ _ (append_no_cr _ _ (by decide)
      (icsEscape_no_cr recipient h6)) (by decide)) h6
  · have hin : '\r' ∉ ("Final Day: " ++ row.typ.getD "IPO" ++ " " ++ row.company.getD ""
        ++ " (" ++ row.symbol.getD "" ++ ")").data :=
      append_no_cr _ _ (append_no_cr _ _ (append_no_cr _ _ (append_no_cr _ _
        (append_no_cr _ _ (by decide) h1) (by decide)) h2) (by decide)) h3 |>
          (fun p => append_no_cr _ _ p (by decide))
    exact append_no_cr _ _ (by decide) (icsEscape_no_cr _ hin)
  · have hin : '\r' ∉ ("Final day to apply (9:00–10:00 AM NPT reminder).\\n" ++ "Close: "
        ++ row.closingDate.getD "" ++ "\\n" ++ "Issue Manager: "
        ++ row.issueManager.getD "").data :=
      append_no_cr _ _ (append_no_cr _ _ (append_no_cr _ _ (append_no_cr _ _
        (append_no_cr _ _ (by decide) (by decide)) h4) (by decide)) (by decide)) h5
    exact append_no_cr _ _ (by decide) (icsEscape_no_cr _ hin)
  · exact append_no_cr _ _ (by decide) (strftimeZ_no_cr _)
  · exact append_no_cr _ _ (by decide) (strftimeZ_no_cr _)
  · decide
  · decide
  · decide
  · decide
  · decide

/-- No logical line of a generated calendar document begins with a space. -/
theorem icsContentLines_head (row : Row) (issue_id recipient orgE orgN : String)
    (now : PyDatetime) (c : Nat × Nat × Nat) :
    ∀ t ∈ icsContentLines row issue_id recipient orgE orgN now c,
      t.data.head? ≠ some ' ' := by
  intro t ht
  simp only [icsContentLines, List.mem_cons, List.not_mem_nil, or_false] at ht
  rcases ht with rfl|rfl|rfl|rfl|rfl|rfl|rfl|rfl|rfl|rfl|rfl|rfl|rfl|rfl|rfl|rfl|rfl|rfl|rfl <;>
    · intro hc
      try simp only [string_data_append] at hc
      exact absurd (Option.some.inj hc) (by decide)

theorem splitCRLFL_doc (L : List (List Char)) (hne : L ≠ [])
    (hcr : ∀ l ∈ L, '\r' ∉ l) :
    splitCRLFL (joinCRLFL L ++ ['\r', '\n']) = L ++ [[]] := by
  cases L with
  | nil => exact absurd rfl hne
  | cons m M =>
    have hj : joinCRLFL ((m :: M) ++ [[]]) = joinCRLFL (m :: M) ++ '\r' :: '\n' :: [] := by
      exact joinCRLFL_snoc M m []
    rw [show joinCRLFL (m :: M) ++ ['\r', '\n'] = joinCRLFL ((m :: M) ++ [[]]) from by
      rw [hj]]
    apply splitCRLFL_joinCRLFL
    · simp
    · intro l hl
      rcases List.mem_append.mp hl with h | h
      · exact hcr l h
      · simp only [List.mem_singleton] at h
        subst h
        simp

theorem flatMap_foldLine_ne_nil (x : List Char) (X : List (List Char)) :
    (x :: X).flatMap foldLine ≠ [] := by
  simp only [List.flatMap_cons]
  intro h
  rcases List.append_eq_nil.mp h with ⟨h1, _⟩
  exact foldLineAux_ne_nil _ _ h1

/-- C5 counterexample: for the repository's own golden offering the folded
calendar document contains a physical line longer than 70 octets (72: the
fold counts characters, and the en dash in the description is three UTF-8
octets), so the claimed 70-octet bound is false of `build_ics` output. -/
theorem claim_C5_counterexample :
    (splitCRLFL (fold_ics (icsDocument hfilRow "HFIL|2026-02-05" "test@example.com"
          "sender@example.com" "Sender" now0 (2026, 2, 9))).data).any
        (fun l => decide (70 < utf8Len l)) = true ∧
      build_ics hfilRow "HFIL|2026-02-05" "test@example.com" "sender@example.com" "Sender" now0
        = .ok (fold_ics (icsDocument hfilRow "HFIL|2026-02-05" "test@example.com"
            "sender@example.com" "Sender" now0 (2026, 2, 9))) :=
  ⟨by decide, rfl⟩

/-- C5 (amended): for inputs free of carriage returns, every physical line
of the folded document has at most 70 *characters* (not octets — see the
counterexample), and removing every CRLF-plus-space continuation
reconstructs exactly the unfolded logical lines (with the document's
trailing empty line). -/
theorem claim_C5 (row : Row) (issue_id recipient orgE orgN : String) (now : PyDatetime)
    (c : Nat × Nat × Nat)
    (hparse : parse_iso_date (row.closingDate.getD "") = some c)
    (h1 : '\r' ∉ (row.typ.getD "IPO").data)
    (h2 : '\r' ∉ (row.company.getD "").data)
    (h3 : '\r' ∉ (row.symbol.getD "").data)
    (h4 : '\r' ∉ (row.closingDate.getD "").data)
    (h5 : '\r' ∉ (row.issueManager.getD "").data)
    (h6 : '\r' ∉ recipient.data)
    (h7 : '\r' ∉ orgE.data)
    (h8 : '\r' ∉ orgN.data) :
    build_ics row issue_id recipient orgE orgN now
        = .ok (fold_ics (icsDocument row issue_id recipient orgE orgN now c)) ∧
      (∀ p ∈ splitCRLFL (fold_ics (icsDocument row issue_id recipient orgE orgN now c)).data,
        p.length ≤ 70) ∧
      unfoldLines
          (splitCRLFL (fold_ics (icsDocument row issue_id recipient orgE orgN now c)).data)
        = (icsContentLines row issue_id recipient orgE orgN now c).map String.data ++ [[]] := by
  have hcrL : ∀ l ∈ (icsContentLines row issue_id recipient orgE orgN now c).map String.data,
      '\r' ∉ l := by
    intro l hl
    rcases List.mem_map.mp hl with ⟨t, ht, rfl⟩
    exact icsContentLines_no_cr row issue_id recipient orgE orgN now c
      h1 h2 h3 h4 h5 h6 h7 h8 t ht
  have hdoceq : (icsDocument row issue_id recipient orgE orgN now c).data
      = joinCRLFL ((icsContentLines row issue_id recipient orgE orgN now c).map String.data)
        ++ ['\r', '\n'] :=
    string_data_append (joinCRLFs (icsContentLines row issue_id recipient orgE orgN now c))
      "\r\n"
  have hsplit : splitCRLFL (icsDocument row issue_id recipient orgE orgN now c).data
      = (icsContentLines row issue_id recipient orgE orgN now c).map String.data ++ [[]] := by
    rw [hdoceq]
    exact splitCRLFL_doc _ (by simp [icsContentLines]) hcrL
  have hfold : (fold_ics (icsDocument row issue_id recipient orgE orgN now c)).data
      = joinCRLFL (((icsContentLines row issue_id recipient orgE orgN now c).map String.data
          ++ [[]]).flatMap foldLine) := by
    have hrfl : (fold_ics (icsDocument row issue_id recipient orgE orgN now c)).data
        = joinCRLFL ((splitCRLFL (icsDocument row issue_id recipient orgE orgN now
            c).data).flatMap foldLine) := rfl
    rw [hrfl, hsplit]
  have hcrF : ∀ p ∈ ((icsContentLines row issue_id recipient orgE orgN now c).map String.data
      ++ [[]]).flatMap foldLine, '\r' ∉ p := by
    intro p hp hcp
    rcases List.mem_flatMap.mp hp with ⟨m, hm, hpm⟩
    rcases foldLineAux_chars m.length m p hpm '\r' hcp with h | h
    · rcases List.mem_append.mp hm with hm2 | hm2
      · exact hcrL m hm2 h
      · simp only [List.mem_singleton] at hm2
        subst hm2
        simp at h
    · exact absurd h (by decide)
  have hFne : ((icsContentLines row issue_id recipient orgE orgN now c).map String.data
      ++ [[]]).flatMap foldLine ≠ [] :=
    flatMap_foldLine_ne_nil _ _
  have hsplitF : splitCRLFL
        (fold_ics (icsDocument row issue_id recipient orgE orgN now c)).data
      = ((icsContentLines row issue_id recipient orgE orgN now c).map String.data
          ++ [[]]).flatMap foldLine := by
    rw [hfold]
    exact splitCRLFL_joinCRLFL _ hFne hcrF
  refine ⟨by simp [build_ics, hparse], ?_, ?_⟩
  · intro p hp
    rw [hsplitF] at hp
    rcases List.mem_flatMap.mp hp with ⟨m, _, hpm⟩
    exact foldLineAux_length m.length m (by omega) p hpm
  · rw [hsplitF]
    apply unfoldLines_flatMap
    intro m hm
    rcases List.mem_append.mp hm with hm2 | hm2
    · rcases List.mem_map.mp hm2 with ⟨t, ht, rfl⟩
      exact icsContentLines_head row issue_id recipient orgE orgN now c t ht
    · simp only [List.mem_singleton] at hm2
      subst hm2
      simp

/-- Witness for C5 at the golden offering. -/
theorem claim_C5_witness :
    build_ics hfilRow "HFIL|2026-02-05" "test@example.com" "sender@example.com" "Sender" now0
        = .ok (fold_ics (icsDocument hfilRow "HFIL|2026-02-05" "test@example.com"
            "sender@example.com" "Sender" now0 (2026, 2, 9))) ∧
      (∀ p ∈ splitCRLFL (fold_ics (icsDocument hfilRow "HFIL|2026-02-05" "test@example.com"
          "sender@example.com" "Sender" now0 (2026, 2, 9))).data, p.length ≤ 70) ∧
      unfoldLines (splitCRLFL (fold_ics (icsDocument hfilRow "HFIL|2026-02-05"
          "test@example.com" "sender@example.com" "Sender" now0 (2026, 2, 9))).data)
        = (icsContentLines hfilRow "HFIL|2026-02-05" "test@example.com" "sender@example.com"
            "Sender" now0 (2026, 2, 9)).map String.data ++ [[]] :=
  claim_C5 hfilRow "HFIL|2026-02-05" "test@example.com" "sender@example.com" "Sender" now0
    (2026, 2, 9) rfl (by decide) (by decide) (by decide) (by decide) (by decide) (by decide)
    (by decide) (by decide)

end NepIpo
